import Mathlib

/-!
# Verification of the exm constraint-modeling and CSP-assembly engine

Shallow embedding of `exm.py`, `exmconstraint.py`, `exmconstraints.py`,
`exmvariable.py`, `exmvalue.py` and `exmpoolvar.py` (the constraint parser,
the reference resolver, the domain filter and the CSP assembler), together
with theorems settling the specification claims.

Strings are modelled as `List Char`; Python `re` regular expressions are
translated into deterministic recursive-descent parsers that reproduce the
engine's leftmost/greedy backtracking behaviour on the three anchored
patterns used by the source (the equivalences are argued in the comments of
each parser).  Python `datetime.datetime` / `datetime.time` values are
modelled by explicit year/month/day and hour/minute/second records with
lexicographic comparison, which is exactly Python's comparison semantics.
A fatal error (`LOGGER.error` followed by `sys.exit`, or an uncaught
exception) is modelled with `Except`; a `LOGGER.error` that does *not* halt
is modelled as an entry appended to an error log.
-/

namespace Exm

/-- The six relational operator symbols of the engine. -/
inductive Op where
  | eq | ne | lt | le | gt | ge
deriving DecidableEq, Repr

/-- The string form of an operator, as stored by the source (`=`, `!=`,
`<`, `<=`, `>`, `>=`). -/
def Op.text : Op → List Char
  | .eq => ['=']
  | .ne => ['!', '=']
  | .lt => ['<']
  | .le => ['<', '=']
  | .gt => ['>']
  | .ge => ['>', '=']

/-- A calendar date, mirroring the date part of `datetime.datetime`. -/
structure Date where
  year : Nat
  month : Nat
  day : Nat
deriving DecidableEq, Repr

/-- A time of day, mirroring `datetime.time` (microseconds are always zero
in this program). -/
structure Time where
  hour : Nat
  minute : Nat
  second : Nat
deriving DecidableEq, Repr

/-- A `datetime.datetime`: a date together with a time of day. -/
structure DateTime where
  date : Date
  time : Time
deriving DecidableEq, Repr

/-- Python compares `datetime.date` lexicographically on
(year, month, day). -/
def Date.ltb (a b : Date) : Bool :=
  a.year < b.year ∨ (a.year = b.year ∧
    (a.month < b.month ∨ (a.month = b.month ∧ a.day < b.day)))

def Date.leb (a b : Date) : Bool := a.ltb b ∨ a = b

/-- Python compares `datetime.time` lexicographically on
(hour, minute, second). -/
def Time.ltb (a b : Time) : Bool :=
  a.hour < b.hour ∨ (a.hour = b.hour ∧
    (a.minute < b.minute ∨ (a.minute = b.minute ∧ a.second < b.second)))

def Time.leb (a b : Time) : Bool := a.ltb b ∨ a = b

/-- Python compares `datetime.datetime` lexicographically: date first,
then time. -/
def DateTime.ltb (a b : DateTime) : Bool :=
  a.date.ltb b.date ∨ (a.date = b.date ∧ a.time.ltb b.time)

def DateTime.leb (a b : DateTime) : Bool := a.ltb b ∨ a = b

/-- Number of days in a month of the proleptic Gregorian calendar used by
`datetime` (the validity domain of `datetime.datetime(year, month, day)`). -/
def daysInMonth (y m : Nat) : Nat :=
  if m = 2 then
    if (y % 4 = 0 ∧ y % 100 ≠ 0) ∨ y % 400 = 0 then 29 else 28
  else if m = 4 ∨ m = 6 ∨ m = 9 ∨ m = 11 then 30
  else 31

/-- `datetime.datetime(y, m, d)` succeeds exactly on these triples
(`MINYEAR = 1`, `MAXYEAR = 9999`). -/
def validDate (d : Date) : Bool :=
  1 ≤ d.year ∧ d.year ≤ 9999 ∧ 1 ≤ d.month ∧ d.month ≤ 12 ∧
    1 ≤ d.day ∧ d.day ≤ daysInMonth d.year d.month

/-- `datetime.time(h, m, s)` succeeds exactly on these triples. -/
def validTime (t : Time) : Bool :=
  t.hour ≤ 23 ∧ t.minute ≤ 59 ∧ t.second ≤ 59

def validDateTime (dt : DateTime) : Bool :=
  validDate dt.date ∧ validTime dt.time

/-! ## Character classes and low-level scanning

`\s` of Python `re` on the inputs at hand is the six ASCII whitespace
characters; `\d` and `[a-zA-Z]` are ASCII digits and letters. -/

def isPySpace (c : Char) : Bool :=
  c = ' ' ∨ c = '\t' ∨ c = '\n' ∨ c = '\r' ∨ c = Char.ofNat 11 ∨ c = Char.ofNat 12

/-- `\s*` (greedy; every place it occurs in the source patterns is followed
by a token that is never a whitespace character, so no backtracking into it
can ever be required). -/
def dropSpaces : List Char → List Char
  | [] => []
  | c :: l => if isPySpace c then dropSpaces l else c :: l

def digitVal (c : Char) : Nat := c.toNat - '0'.toNat

/-- `\d{n}` : exactly `n` digits, accumulating their value the way Python's
`int` reads the matched text. -/
def parseExactDigits : Nat → Nat → List Char → Option (Nat × List Char)
  | 0, acc, l => some (acc, l)
  | n + 1, acc, c :: l =>
      if c.isDigit then parseExactDigits n (acc * 10 + digitVal c) l else none
  | _ + 1, _, [] => none

/-- `\d{1,2}` in a position with no mandatory follower: greedily take two
digits if available, else one, else fail. -/
def parseD12 : List Char → Option (Nat × List Char)
  | c₁ :: c₂ :: l =>
      if c₁.isDigit then
        if c₂.isDigit then some (digitVal c₁ * 10 + digitVal c₂, l)
        else some (digitVal c₁, c₂ :: l)
      else none
  | [c₁] => if c₁.isDigit then some (digitVal c₁, []) else none
  | [] => none

/-- The operator group `(=|!=|<|<=|>|>=)?`.  The regex engine tries the
alternatives left to right with backtracking; in all three source patterns
the operator is followed by `\s*` and then a token that can never start
with `'='` (a digit, a `'$'` or a letter), so whenever the input starts
with `<=`, `>=` or `!=` the one-character alternative fails on its
continuation and the engine settles on the two-character one.  Checking the
two-character operators first is therefore equivalent.  Likewise, if a
one-character operator matches but the continuation fails, the empty
alternative puts the parser back on the same `'='`/`'<'`/`'>'` character,
where the continuation fails as well, so no fallback to the empty operator
is needed. -/
def parseOp : List Char → Option Op × List Char
  | '!' :: '=' :: l => (some .ne, l)
  | '<' :: '=' :: l => (some .le, l)
  | '>' :: '=' :: l => (some .ge, l)
  | '=' :: l => (some .eq, l)
  | '<' :: l => (some .lt, l)
  | '>' :: l => (some .gt, l)
  | l => (none, l)

/-! ## The constraint parsers

`get_uni_date_constraint`, `get_uni_time_constraint` and `get_biconstraint`
of `exm.py`.  Each raises `ValueError` both when its regular expression does
not match and when the `datetime` constructor rejects the matched numbers;
both failure modes are modelled as `none`. -/

/-- A unit constraint (`EXMUniConstraint`) whose constant is a
`datetime.datetime` (always midnight of the parsed day). -/
structure UniDateC where
  op : Op
  const : Date
deriving DecidableEq, Repr

/-- A unit constraint (`EXMUniConstraint`) whose constant is a
`datetime.time`. -/
structure UniTimeC where
  op : Op
  const : Time
deriving DecidableEq, Repr

/-- A binary constraint (`EXMBiConstraint`): an operator and the
fully-qualified cellname of the referenced variable. -/
structure BiC where
  op : Op
  var : List Char
deriving DecidableEq, Repr

/-- The month/day tail `(?P<month>\d{1,2})` sep `(?P<day>\d{1,2})` (sep a slash or hyphen) of
`RE_UNI_DATE_CONSTRAINT`, including the engine's backtracking from a
two-digit month to a one-digit month when the separator after it does not
match. -/
def parseMonthDay2 (l : List Char) : Option (Nat × Nat) :=
  match l with
  | c₁ :: c₂ :: c₃ :: r =>
      if c₁.isDigit ∧ c₂.isDigit ∧ (c₃ = '/' ∨ c₃ = '-') then
        (parseD12 r).map (fun p => (digitVal c₁ * 10 + digitVal c₂, p.1))
      else none
  | _ => none

def parseMonthDay1 (l : List Char) : Option (Nat × Nat) :=
  match l with
  | c₁ :: c₃ :: r =>
      if c₁.isDigit ∧ (c₃ = '/' ∨ c₃ = '-') then
        (parseD12 r).map (fun p => (digitVal c₁, p.1))
      else none
  | _ => none

def parseMonthDay (l : List Char) : Option (Nat × Nat) :=
  (parseMonthDay2 l).orElse fun _ => parseMonthDay1 l

/-- `get_uni_date_constraint`: match `RE_UNI_DATE_CONSTRAINT` =
`^\s*(op)?\s*(\d{4})` sep `(\d{1,2})` sep `(\d{1,2})` with sep a slash
or a hyphen, against a prefix of the
input (trailing characters are ignored), default the operator to `=`, and
build `datetime.datetime(year, month, day)` — which raises (→ `none`) on an
out-of-range date. -/
def getUniDateConstraint (l : List Char) : Option UniDateC := do
  let l := dropSpaces l
  let (op?, l) := parseOp l
  let l := dropSpaces l
  let (y, l) ← parseExactDigits 4 0 l
  match l with
  | s :: l =>
      if s = '/' ∨ s = '-' then
        let (m, d) ← parseMonthDay l
        let date : Date := ⟨y, m, d⟩
        if validDate date then some ⟨op?.getD .eq, date⟩ else none
      else none
  | [] => none

/-- The optional seconds group `(?P<seconds>(:\d{1,2})?)`: when the colon is
not followed by a digit the group matches the empty string and the colon is
left unconsumed. -/
def parseSeconds (l : List Char) : Nat × List Char :=
  match l with
  | ':' :: r =>
      match parseD12 r with
      | some (s, r') => (s, r')
      | none => (0, l)
  | _ => (0, l)

/-- The optional qualifier `(AM|PM)?`. -/
def parseQualifier (l : List Char) : Option Bool × List Char :=
  match l with
  | 'A' :: 'M' :: r => (some false, r)
  | 'P' :: 'M' :: r => (some true, r)
  | _ => (none, l)

/-- The hour `(\d{1,2})` followed by the mandatory `':'`, with the engine's
two-digit→one-digit backtracking. -/
def parseHourColon (l : List Char) : Option (Nat × List Char) :=
  match l with
  | c₁ :: c₂ :: l' =>
      if c₁.isDigit then
        if c₂.isDigit then
          match l' with
          | ':' :: r => some (digitVal c₁ * 10 + digitVal c₂, r)
          | _ => none
        else if c₂ = ':' then some (digitVal c₁, l')
        else none
      else none
  | _ => none

/-- `get_uni_time_constraint`: match `RE_UNI_TIME_CONSTRAINT` =
`^\s*(op)?\s*(\d{1,2}):(\d{1,2})((:\d{1,2})?)\s*((AM|PM)?)` against a
prefix of the input, default the operator to `=`, add 12 to a `PM` hour
below 12, default seconds to 0, and build `datetime.time` — which raises
(→ `none`) on out-of-range components. -/
def getUniTimeConstraint (l : List Char) : Option UniTimeC := do
  let l := dropSpaces l
  let (op?, l) := parseOp l
  let l := dropSpaces l
  let (h, l) ← parseHourColon l
  let (mi, l) ← parseD12 l
  let (s, l) := parseSeconds l
  let l := dropSpaces l
  let (q, _) := parseQualifier l
  let h := if q = some true ∧ h < 12 then h + 12 else h
  let t : Time := ⟨h, mi, s⟩
  if validTime t then some ⟨op?.getD .eq, t⟩ else none

/-- `[a-zA-Z]+\d+`: one or more letters then one or more digits, both
greedy; returns the matched cell text (trailing characters ignored). -/
def parseCell (l : List Char) : Option (List Char) :=
  let letters := l.takeWhile Char.isAlpha
  let rest := l.dropWhile Char.isAlpha
  let digits := rest.takeWhile Char.isDigit
  if letters ≠ [] ∧ digits ≠ [] then some (letters ++ digits) else none

/-- All decompositions `l = p ++ '.' :: r`, ordered by increasing length
of `p`. -/
def dotSplits : List Char → List (List Char × List Char)
  | [] => []
  | c :: l =>
      (if c = '.' then [(([] : List Char), l)] else []) ++
        (dotSplits l).map fun q => (c :: q.1, q.2)

/-- The optional sheet group `((?P<sheet>\$.+)\.)?` of `RE_BICONSTRAINT`
followed by the cell: Python's `.` does not match a newline and `.+` is
greedy, so the engine tries every decomposition at a `'.'` — longest
newline-free non-empty sheet text first — and keeps the first one whose
remainder starts with a cell reference; when none works (or the input does
not start with `'$'`) the group is skipped and the cell must match
directly. -/
def parseSheetCell (l : List Char) : Option (List Char × Option (List Char)) :=
  match l with
  | '$' :: l' =>
      (dotSplits l').reverse.findSome? fun (p, r) =>
        if p ≠ [] ∧ '\n' ∉ p then
          (parseCell r).map fun cell => (cell, some ('$' :: p))
        else none
  | _ => (parseCell l).map fun cell => (cell, none)

/-- `get_biconstraint`: match `RE_BICONSTRAINT` =
`^\s*(op)?\s*((?P<sheet>\$.+)\.)?(?P<cell>[a-zA-Z]+\d+)` against a prefix
of the input, default the operator to `=`, and qualify an unqualified cell
with the enclosing sheet name (`'$' + sheetname + '.' + cell`). -/
def getBiconstraint (l : List Char) (sheetname : List Char) : Option BiC := do
  let l := dropSpaces l
  let (op?, l) := parseOp l
  let l := dropSpaces l
  let (cell, sheet?) ← parseSheetCell l
  let cellname := match sheet? with
    | some sheet => sheet ++ '.' :: cell
    | none => '$' :: sheetname ++ '.' :: cell
  some ⟨op?.getD .eq, cellname⟩

/-! ## `get_constraints`: the per-cell parsing pipeline

Splits the cell text on commas (`RE_SEP_CONSTRAINT`), skips all-whitespace
fragments, classifies each remaining fragment by the
date → time → binary `try/except` cascade, and — when every parser raises —
logs `ERROR_CONSTRAINT` and calls `sys.exit()`, modelled as
`Except.error`. -/

/-- Python's `not fragment.strip()`: the fragment is entirely whitespace. -/
def isBlank (l : List Char) : Bool := l.all isPySpace

/-- `ERROR_CONSTRAINT.format(fragment, sheetname, cellname)`. -/
def errConstraintMsg (frag sheet cell : List Char) : List Char :=
  ("Syntax error: The content '".toList ++ frag)
    ++ ("' found in the register '$".toList ++ sheet)
    ++ ('.' :: cell)
    ++ "' is not a valid constraint specification".toList

/-- The fragment loop of `get_constraints`, accumulating the three result
lists in source order; the first fragment that all three parsers reject
aborts the whole run. -/
def goConstraints (sheet cell : List Char) :
    List (List Char) → Except (List Char) (List UniDateC × List UniTimeC × List BiC)
  | [] => .ok ([], [], [])
  | f :: fs =>
      if isBlank f then goConstraints sheet cell fs
      else
        match getUniDateConstraint f with
        | some c =>
            (goConstraints sheet cell fs).map fun r => (c :: r.1, r.2.1, r.2.2)
        | none =>
            match getUniTimeConstraint f with
            | some c =>
                (goConstraints sheet cell fs).map fun r => (r.1, c :: r.2.1, r.2.2)
            | none =>
                match getBiconstraint f sheet with
                | some c =>
                    (goConstraints sheet cell fs).map fun r => (r.1, r.2.1, c :: r.2.2)
                | none => .error (errConstraintMsg f sheet cell)

/-- `get_constraints(instr, sheetname, cellname)`: an empty cell produces
three empty lists without splitting. -/
def get_constraints (l sheet cell : List Char) :
    Except (List Char) (List UniDateC × List UniTimeC × List BiC) :=
  if l = [] then .ok ([], [], [])
  else goConstraints sheet cell (l.splitOn ',')

/-- A fragment classified by exactly one of the three constraint kinds. -/
inductive Classified where
  | cdate (c : UniDateC)
  | ctime (c : UniTimeC)
  | cbi (c : BiC)
deriving DecidableEq, Repr

/-- Modelled from the spec's algorithm description: "for each non-blank
fragment, attempt to match, in this fixed priority order, a unit-date
pattern, then a unit-time pattern, then a binary-reference pattern; the
first successful match wins". -/
def specClassify (f sheet : List Char) : Option Classified :=
  (((getUniDateConstraint f).map Classified.cdate).orElse fun () =>
    ((getUniTimeConstraint f).map Classified.ctime).orElse fun () =>
      (getBiconstraint f sheet).map Classified.cbi)

/-- The classification fold of the spec-side pipeline: if some fragment
classifies as nothing, a fatal syntax error naming that fragment with the
sheet and location; otherwise the three lists of classified constraints in
source order. -/
def specFold (sheet cell : List Char) (frags : List (List Char)) :
    Except (List Char) (List UniDateC × List UniTimeC × List BiC) :=
  match frags.find? (fun f => (specClassify f sheet).isNone) with
  | some f => .error (errConstraintMsg f sheet cell)
  | none =>
      .ok (frags.filterMap (fun f => getUniDateConstraint f),
        frags.filterMap
          (fun f => if (getUniDateConstraint f).isSome then none
            else getUniTimeConstraint f),
        frags.filterMap
          (fun f => if (getUniDateConstraint f).isSome ∨
              (getUniTimeConstraint f).isSome then none
            else getBiconstraint f sheet))

/-- Modelled from the spec's algorithm description of the Constraint
Parser: split on commas, drop blank fragments, classify every remaining
fragment in priority order. -/
def getConstraintsSpec (l sheet cell : List Char) :
    Except (List Char) (List UniDateC × List UniTimeC × List BiC) :=
  specFold sheet cell ((l.splitOn ',').filter fun f => ! isBlank f)

/-- Prepend a classified constraint to the matching result list. -/
def prependC : Classified → (List UniDateC × List UniTimeC × List BiC) →
    (List UniDateC × List UniTimeC × List BiC)
  | .cdate c, r => (c :: r.1, r.2.1, r.2.2)
  | .ctime c, r => (r.1, c :: r.2.1, r.2.2)
  | .cbi c, r => (r.1, r.2.1, c :: r.2.2)

/-! ## `EXMConstraints`: the constraint-set mapping

`exmconstraints.py` stores a `defaultdict(list)` keyed by cellname;
`dict` preserves insertion order, so the embedding is an ordered
association list.  `__getitem__` goes through the `defaultdict`, which
*inserts* `key ↦ []` when the key is absent, so lookup returns the result
together with the possibly-updated mapping. -/

abbrev CSet (α : Type) : Type := List (List Char × List α)

/-- `EXMConstraints.__init__`: the mapping starts empty. -/
def csetEmpty (α : Type) : CSet α := []

/-- `EXMConstraints.__contains__`: `other in self._constraints.keys()`
(does not auto-vivify). -/
def csetContains {α : Type} (s : CSet α) (k : List Char) : Bool :=
  s.any fun e => e.1 = k

/-- `EXMConstraints.keys()` in insertion order. -/
def csetKeys {α : Type} (s : CSet α) : List (List Char) := s.map Prod.fst

/-- `EXMConstraints.__len__`. -/
def csetLen {α : Type} (s : CSet α) : Nat := s.length

/-- `EXMConstraints.__setitem__`: extend the stored list in place when the
key exists, otherwise bind the key to the given list. -/
def csetSet {α : Type} (s : CSet α) (k : List Char) (v : List α) : CSet α :=
  if csetContains s k then
    s.map fun e => if e.1 = k then (e.1, e.2 ++ v) else e
  else s ++ [(k, v)]

/-- `EXMConstraints.__getitem__`: on a present key return its list and
leave the mapping unchanged; on an absent key the `defaultdict` machinery
inserts `key ↦ []` and returns the fresh empty list. -/
def csetGet {α : Type} (s : CSet α) (k : List Char) : List α × CSet α :=
  if csetContains s k then
    (((s.find? fun e => e.1 = k).map Prod.snd).getD [], s)
  else ([], s ++ [(k, [])])

/-- Reading a *present* key (the guarded pattern
`if key in cs: ... cs[key]` used by `exm.py`). -/
def csetLookup {α : Type} (s : CSet α) (k : List Char) : List α :=
  ((s.find? fun e => e.1 = k).map Prod.snd).getD []

/-- The invariant claimed by the spec for `ConstraintSet`: every key
present in the mapping maps to a non-empty list. -/
def csetNonEmptyInv {α : Type} (s : CSet α) : Prop :=
  ∀ e ∈ s, e.2 ≠ ([] : List α)

/-! ## `EXMVariable` and `EXMValue` -/

/-- `datetime.datetime.fromordinal(1)`, the sentinel "unset" date. -/
def sentinelDT : DateTime := ⟨⟨1, 1, 1⟩, ⟨0, 0, 0⟩⟩

/-- `datetime.time()`, the sentinel "unset" time of day. -/
def midnight : Time := ⟨0, 0, 0⟩

/-- `EXMVariable`: a scheduling item.  Identity is the cellname
`'$' + sheetname + '.' + column + str(row)`; the four constraint sets are
attached at construction. -/
structure Var where
  grade : List Char
  name : List Char
  course : Int
  semester : Int
  date : DateTime
  time : Time
  setup : Int
  cellname : List Char
  dateUni : CSet UniDateC
  timeUni : CSet UniTimeC
  dateBi : CSet BiC
  timeBi : CSet BiC
deriving DecidableEq

/-- `set_date_uniconstraints` / `set_time_uniconstraints`: every unit
constraint is inserted under the variable's own cellname, one at a time. -/
def attachUni {α : Type} (cellname : List Char) (cs : List α) : CSet α :=
  cs.foldl (fun s c => csetSet s cellname [c]) (csetEmpty α)

/-- `set_date_biconstraints` / `set_time_biconstraints`: every binary
constraint is inserted under the cellname of the variable it refers to,
one at a time. -/
def attachBi (cs : List BiC) : CSet BiC :=
  cs.foldl (fun s c => csetSet s c.var [c]) (csetEmpty BiC)

/-- `EXMValue`: a candidate (date, time) slot; `_datetime` is the combined
value and `_setup` starts at 24 and is overwritten by `set_setup`. -/
structure Value where
  dt : DateTime
  setup : Int
deriving DecidableEq

/-! ## The operator library (unit predicates and dispatch)

The unit-date constants are `datetime.datetime` objects whose time part is
always midnight; the predicates only ever use `cj.date()`, so constants
are carried as `Date` and `cj.date()` is the constant itself. -/

def uni_equal_date (xi : DateTime) (cj : Date) : Bool := xi.date = cj

def uni_not_equal_date (xi : DateTime) (cj : Date) : Bool := xi.date ≠ cj

def uni_lt_date (xi : DateTime) (cj : Date) : Bool := xi.date.ltb cj

def uni_le_date (xi : DateTime) (cj : Date) : Bool := xi.date.leb cj

def uni_gt_date (xi : DateTime) (cj : Date) : Bool := cj.ltb xi.date

def uni_ge_date (xi : DateTime) (cj : Date) : Bool := cj.leb xi.date

def uni_equal_time (xi : DateTime) (cj : Time) : Bool := xi.time = cj

def uni_not_equal_time (xi : DateTime) (cj : Time) : Bool := xi.time ≠ cj

def uni_lt_time (xi : DateTime) (cj : Time) : Bool := xi.time.ltb cj

def uni_le_time (xi : DateTime) (cj : Time) : Bool := xi.time.leb cj

def uni_gt_time (xi : DateTime) (cj : Time) : Bool := cj.ltb xi.time

def uni_ge_time (xi : DateTime) (cj : Time) : Bool := cj.leb xi.time

/-- The unit-date dispatch table of `uni_is_compatible`. -/
def uniDateDispatch (op : Op) (xi : DateTime) (cj : Date) : Bool :=
  match op with
  | .eq => uni_equal_date xi cj
  | .ne => uni_not_equal_date xi cj
  | .lt => uni_lt_date xi cj
  | .le => uni_le_date xi cj
  | .gt => uni_gt_date xi cj
  | .ge => uni_ge_date xi cj

/-- The unit-time dispatch table of `uni_is_compatible`. -/
def uniTimeDispatch (op : Op) (xi : DateTime) (cj : Time) : Bool :=
  match op with
  | .eq => uni_equal_time xi cj
  | .ne => uni_not_equal_time xi cj
  | .lt => uni_lt_time xi cj
  | .le => uni_le_time xi cj
  | .gt => uni_gt_time xi cj
  | .ge => uni_ge_time xi cj

/-- `uni_is_compatible(variable, value)`: walk every key of the unit-date
set and every constraint under it, returning `False` on the first
unsatisfied predicate, then the same for the unit-time set.  (The
`len(...) > 0` guards in the source only skip an empty loop and change
nothing.) -/
def uni_is_compatible (v : Var) (value : DateTime) : Bool :=
  (v.dateUni.all fun e => e.2.all fun c => uniDateDispatch c.op value c.const) &&
    (v.timeUni.all fun e => e.2.all fun c => uniTimeDispatch c.op value c.const)

/-! ## Datetime arithmetic and the minimum-gap predicate

`bi_difftime` subtracts two `datetime` values (a `timedelta`) and divides
`total_seconds()` by 3600.  The subtraction is modelled through the
proleptic-Gregorian ordinal (`datetime.date.toordinal`); the floating-point
`total_seconds()/3600 >= setup` comparison is exact for every representable
`datetime` difference (whole seconds below `2^53`) and is modelled over
`ℚ`. -/

/-- Days in the months strictly before month `m` of year `y`
(`datetime`'s `_days_before_month`). -/
def daysBeforeMonth (y m : Nat) : Nat :=
  (List.range (m - 1)).foldl (fun acc i => acc + daysInMonth y (i + 1)) 0

/-- Days in the years strictly before year `y`
(`datetime`'s `_days_before_year`). -/
def daysBeforeYear (y : Nat) : Int :=
  365 * ((y : Int) - 1) + ((y : Int) - 1) / 4 -
    ((y : Int) - 1) / 100 + ((y : Int) - 1) / 400

/-- `datetime.date.toordinal`: day number in the proleptic Gregorian
calendar, with 0001-01-01 having ordinal 1. -/
def Date.toOrdinal (d : Date) : Int :=
  daysBeforeYear d.year + (daysBeforeMonth d.year d.month : Int) + (d.day : Int)

/-- Seconds since the epoch 0001-01-01 00:00:00; differences of this
quantity are exactly `timedelta.total_seconds()` of datetime
subtraction. -/
def DateTime.totalSeconds (dt : DateTime) : Int :=
  86400 * dt.date.toOrdinal +
    3600 * (dt.time.hour : Int) + 60 * (dt.time.minute : Int) + (dt.time.second : Int)

/-- `bi_difftime(xi, xj)`: order the two values (Python's `datetime >` is
the lexicographic comparison), subtract the earlier from the later, take
the setup of the later one, and require `total_seconds()/3600 >= setup`. -/
def bi_difftime (xi xj : Value) : Bool :=
  if xj.dt.ltb xi.dt then
    decide ((((xi.dt.totalSeconds - xj.dt.totalSeconds : Int) : ℚ)) / 3600 ≥ (xi.setup : ℚ))
  else
    decide ((((xj.dt.totalSeconds - xi.dt.totalSeconds : Int) : ℚ)) / 3600 ≥ (xj.setup : ℚ))

/-- Modelled from the spec: "compute the absolute duration between their
assigned values; the predicate holds iff that duration (in hours) is ≥ the
minimum-gap of whichever item has the later value". -/
def minimumGapSpec (xi xj : Value) : Prop :=
  ((|xi.dt.totalSeconds - xj.dt.totalSeconds| : ℚ)) / 3600 ≥
    (((if xi.dt.ltb xj.dt then xj.setup else xi.setup) : Int) : ℚ)

/-! ## Decimal rendering (Python `str`) -/

def natStrAux : Nat → Nat → List Char
  | 0, _ => []
  | fuel + 1, n => if n = 0 then [] else natStrAux fuel (n / 10) ++ [Nat.digitChar (n % 10)]

/-- `str` of a non-negative integer. -/
def natStr (n : Nat) : List Char :=
  if n = 0 then ['0'] else natStrAux (n + 1) n

/-- `str` of a Python `int`. -/
def intStr (i : Int) : List Char :=
  if i < 0 then '-' :: natStr i.natAbs else natStr i.toNat

/-- Zero-padding to width 2, as `datetime.__str__` prints months, days,
hours, minutes and seconds (all below 100 for valid values). -/
def pad2 (n : Nat) : List Char :=
  [Nat.digitChar (n / 10 % 10), Nat.digitChar (n % 10)]

/-- Zero-padding to width 4, as `datetime.__str__` prints years (below
10000 for valid values). -/
def pad4 (n : Nat) : List Char :=
  [Nat.digitChar (n / 1000 % 10), Nat.digitChar (n / 100 % 10),
    Nat.digitChar (n / 10 % 10), Nat.digitChar (n % 10)]

/-- `str(datetime.date(y, m, d))` = `YYYY-MM-DD`. -/
def dateStr (d : Date) : List Char :=
  pad4 d.year ++ '-' :: pad2 d.month ++ '-' :: pad2 d.day

/-- `str(datetime.time(h, m, s))` = `HH:MM:SS` (microseconds are always
zero in this program). -/
def timeStr (t : Time) : List Char :=
  pad2 t.hour ++ ':' :: pad2 t.minute ++ ':' :: pad2 t.second

/-! ## Canonical string forms (`EXMUniConstraint.__str__`,
`EXMBiConstraint.__str__`): `"{0} {1}".format(operator, constant)`. -/

/-- `str` of a unit date constraint: the constant is a
`datetime.datetime` at midnight, printed `YYYY-MM-DD 00:00:00`. -/
def UniDateC.str (c : UniDateC) : List Char :=
  c.op.text ++ ' ' :: (dateStr c.const ++ ' ' :: timeStr midnight)

/-- `str` of a unit time constraint. -/
def UniTimeC.str (c : UniTimeC) : List Char :=
  c.op.text ++ ' ' :: timeStr c.const

/-- `str` of a binary constraint. -/
def BiC.str (c : BiC) : List Char :=
  c.op.text ++ ' ' :: c.var

/-! ## `EXMVariable.__str__` and the empty-domain diagnostic -/

/-- Python `"{0: <12}"`-style left alignment. -/
def padRightSp (n : Nat) (l : List Char) : List Char :=
  l ++ List.replicate (n - l.length) ' '

/-- Python `"{0: > 4}"`: a space sign for non-negative numbers,
right-aligned to width 4. -/
def setupField (i : Int) : List Char :=
  let s := if 0 ≤ i then ' ' :: intStr i else intStr i
  List.replicate (4 - s.length) ' ' ++ s

/-- The part of `EXMVariable.__str__` after the aligned cellname: name,
course, semester and setup fields, then the assigned date (ten dashes
while it still holds the sentinel) and the assigned time (eight dashes
while it holds the sentinel). -/
def varStrTail (v : Var) : List Char :=
  ("] ".toList ++ padRightSp 90 v.name)
    ++ (" [".toList ++ intStr v.course) ++ ('.' :: intStr v.semester)
    ++ ("] >".toList ++ setupField v.setup) ++ " (".toList
    ++ (if v.date = sentinelDT then List.replicate 10 '-' ++ [' ']
        else dateStr v.date.date ++ [' '])
    ++ (if v.time = midnight then List.replicate 8 '-' ++ [')']
        else timeStr v.time ++ [')'])

/-- `EXMVariable.__str__`. -/
def varStr (v : Var) : List Char :=
  '[' :: (padRightSp 12 v.cellname ++ varStrTail v)

/-- `ERROR_EMPTY_DOMAIN.format(ivariable)`. -/
def emptyDomainMsg (v : Var) : List Char :=
  "Empty domain for variable '".toList ++ varStr v ++ ['\'']

/-! ## The domain filter of `main` -/

/-- One variable's filtered domain: the candidates compatible with all its
unit constraints, deep-copied and stamped with the variable's setup time
(`newval.set_setup(ivariable.get_setup())`). -/
def filteredDomain (v : Var) (domain : List Value) : List Value :=
  (domain.filter fun val => uni_is_compatible v val.dt).map
    fun val => { val with setup := v.setup }

/-- The domain-construction loop of `main`: at the first variable whose
filtered domain is empty, `ERROR_EMPTY_DOMAIN` is logged and the solver
library's `addVariable` immediately raises `ValueError("Domain is empty")`
(the source comments rely on exactly this), aborting the run: no later
variable is processed and nothing is returned. -/
def buildDomains (pool : List Var) (domain : List Value) :
    Except (List Char) (List (List Char × List Value)) :=
  match pool with
  | [] => .ok []
  | v :: rest =>
      let idom := filteredDomain v domain
      if idom = [] then .error (emptyDomainMsg v)
      else (buildDomains rest domain).map fun acc => (v.cellname, idom) :: acc

/-! ## The reference resolver -/

/-- `ikey not in poolvar`: `EXMPoolVar.__contains__` compares the string
against each variable, which `EXMVariable.__eq__` resolves to a cellname
comparison. -/
def poolContains (pool : List Var) (k : List Char) : Bool :=
  pool.any fun v => v.cellname = k

def digitsToNat (ds : List Char) : Nat :=
  ds.foldl (fun a c => a * 10 + digitVal c) 0

/-- `(?P<column>[a-zA-Z]+)(?P<row>\d+)` of `RE_CELLNAME`: the column
letters and the row number (trailing characters ignored). -/
def parseColRow (l : List Char) : Option (List Char × Nat) :=
  let letters := l.takeWhile Char.isAlpha
  let rest := l.dropWhile Char.isAlpha
  let digits := rest.takeWhile Char.isDigit
  if letters ≠ [] ∧ digits ≠ [] then some (letters, digitsToNat digits) else none

/-- `RE_CELLNAME` = `^\s*\$((?P<sheet>.*))\.(?P<column>[a-zA-Z]+)(?P<row>\d+)`:
like the binary-constraint sheet group but the sheet text may be empty
(`.*`), and the location is returned as (sheet, column, row). -/
def parseCellName (l : List Char) : Option (List Char × List Char × Nat) :=
  match dropSpaces l with
  | '$' :: l' =>
      (dotSplits l').reverse.findSome? fun pr =>
        if '\n' ∉ pr.1 then
          (parseColRow pr.2).map fun q => (pr.1, q.1, q.2)
        else none
  | _ => none

/-- `get_next_indirect(poolvar)`: scan every variable's *binary date*
constraint keys (the source never looks at the binary time constraints,
despite its own docstring promising "either date or time") and return the
decoded location of the first key absent from the pool; `none` when the
scan finds nothing.  The inner `some none` models the branch where
`RE_CELLNAME` fails to match: the source logs an error and then crashes on
`m.group` of `None` (`AttributeError`). -/
def get_next_indirect (pool : List Var) :
    Option (Option (List Char × List Char × Nat)) :=
  pool.findSome? fun ivar =>
    (csetKeys ivar.dateBi).findSome? fun ikey =>
      if poolContains pool ikey then none
      else some (parseCellName ikey)

/-! ## `get_variables`: the item builder

One source row carries the subject fields, the raw date and time cell
texts (already rendered to strings by `stringize`, the typed-cell
boundary), the optional setup cell, and the (column, row) coordinate of
its `Asignatura` cell.  A category mismatch (a unit-time fragment in the
date cell, or a unit-date fragment in the time cell) is logged through
`LOGGER.error` — which does *not* halt — and the loop continues and still
builds the variable; the misplaced fragments are simply never attached
(only `date_uni_date`, `date_bi`, `time_uni_time` and `time_bi` are). -/

structure Row where
  asignatura : List Char
  curso : Int
  cuatrimestre : Int
  fecha : List Char
  hora : List Char
  setupCell : Option Int
  column : List Char
  rownum : Nat
deriving DecidableEq

/-- The non-fatal messages `get_variables` can log for a row.  (The Python
text of `ERROR_TIME_IN_DATE`/`ERROR_DATE_IN_TIME` interpolates the
`repr` of the offending constraint list, which includes memory addresses,
so only the kind and the offending cell are modelled.) -/
inductive LogMsg where
  | timeInDate (cell : List Char)
  | dateInTime (cell : List Char)
deriving DecidableEq, Repr

/-- `DEFAULT_SETUP_TIME` and the guard
`int(irow['Setup']) if "Setup" in master and irow['Setup'] else 24`
(an absent column, an empty cell and a zero cell are all falsy). -/
def setupOf (hasSetupCol : Bool) (cell : Option Int) : Int :=
  match hasSetupCol, cell with
  | true, some v => if v = 0 then 24 else v
  | _, _ => 24

/-- The body of the `get_variables` row loop: parse both cells (a fatal
syntax error propagates), log — but survive — category mismatches, and
build the `EXMVariable` with its four constraint sets. -/
def processRow (sheetname : List Char) (hasSetupCol : Bool) (r : Row) :
    Except (List Char) (Var × List LogMsg) := do
  let loc := r.column ++ natStr r.rownum
  let (dUD, dUT, dB) ← get_constraints r.fecha sheetname loc
  let (tUD, tUT, tB) ← get_constraints r.hora sheetname loc
  let errs :=
    (if dUT ≠ [] then [LogMsg.timeInDate loc] else []) ++
      (if tUD ≠ [] then [LogMsg.dateInTime loc] else [])
  let cellname := '$' :: sheetname ++ '.' :: loc
  .ok ({ grade := sheetname
         name := r.asignatura
         course := r.curso
         semester := r.cuatrimestre
         date := sentinelDT
         time := midnight
         setup := setupOf hasSetupCol r.setupCell
         cellname := cellname
         dateUni := attachUni cellname dUD
         timeUni := attachUni cellname tUT
         dateBi := attachBi dB
         timeBi := attachBi tB }, errs)

/-- Truthiness of the numeric selection criteria (`params.course`,
`params.semester`): absent or zero is falsy and disables the filter. -/
def intFilterActive (c : Option Int) : Bool :=
  match c with
  | some v => v ≠ 0
  | none => false

/-- The selection test of `get_variables`: skip the row unless it matches
the (grade, course, semester) criteria; the grade of every row is the
sheet name itself. -/
def rowSkipped (sheetname gradeF : List Char) (courseF semF : Option Int) (r : Row) : Bool :=
  (gradeF ≠ [] ∧ gradeF ≠ sheetname) ∨
    (intFilterActive courseF ∧ courseF ≠ some r.curso) ∨
    (intFilterActive semF ∧ semF ≠ some r.cuatrimestre)

/-- `get_variables`: iterate the sheet's rows, skip the ones failing the
selection criteria, and build a variable from each remaining row,
accumulating the non-fatal log; a fatal syntax error aborts everything. -/
def get_variables (sheetname gradeF : List Char) (courseF semF : Option Int)
    (hasSetupCol : Bool) :
    List Row → Except (List Char) (List Var × List LogMsg)
  | [] => .ok ([], [])
  | r :: rs =>
      if rowSkipped sheetname gradeF courseF semF r then
        get_variables sheetname gradeF courseF semF hasSetupCol rs
      else do
        let (v, errs) ← processRow sheetname hasSetupCol r
        let (vs, errs') ← get_variables sheetname gradeF courseF semF hasSetupCol rs
        .ok (v :: vs, errs ++ errs')

/-! ## The CSP assembler of `main` -/

/-- A constraint binding handed to the solver, recorded by predicate
family, operator and the cellnames of the ordered pair of variables. -/
inductive Posted where
  | gap (i j : List Char)
  | pdate (op : Op) (i j : List Char)
  | ptime (op : Op) (i j : List Char)
deriving DecidableEq, Repr

/-- The cellname of the second variable of a binding. -/
def Posted.target : Posted → List Char
  | .gap _ j => j
  | .pdate _ _ j => j
  | .ptime _ _ j => j

/-- The bindings posted for one ordered pair (i, j) of the assembly loop:
nothing when the two variables are equal (`EXMVariable.__eq__` compares
cellnames); `bi_difftime` when they share grade and course; then one
binary-date binding per constraint stored under j's cellname in i's
binary-date set, and the same for binary-time.  A key absent from the pool
is never looked up — such a constraint is silently never posted. -/
def postsFor (i j : Var) : List Posted :=
  if i.cellname = j.cellname then []
  else
    (if i.grade = j.grade ∧ i.course = j.course then [Posted.gap i.cellname j.cellname]
      else []) ++
    (if csetContains i.dateBi j.cellname then
      (csetLookup i.dateBi j.cellname).map fun c => Posted.pdate c.op i.cellname j.cellname
      else []) ++
    (if csetContains i.timeBi j.cellname then
      (csetLookup i.timeBi j.cellname).map fun c => Posted.ptime c.op i.cellname j.cellname
      else [])

/-- The constraint-assembly double loop of `main` (lines 1096–1151): every
ordered pair of pool variables contributes its bindings; there is no error
path. -/
def assembleConstraints (pool : List Var) : List Posted :=
  (pool.map fun i => (pool.map fun j => postsFor i j).flatten).flatten

/-! ## Concrete instances used by counterexamples and witnesses -/

/-- A variable with no constraints at all, located at `$G.A1`. -/
def demoBareVar : Var :=
  { grade := ['G'], name := ['A'], course := 1, semester := 1,
    date := sentinelDT, time := midnight, setup := 24,
    cellname := "$G.A1".toList,
    dateUni := csetEmpty UniDateC, timeUni := csetEmpty UniTimeC,
    dateBi := csetEmpty BiC, timeBi := csetEmpty BiC }

/-- A variable at `$G.A1` whose only constraint is a *binary time*
constraint referencing `$G.Z9`. -/
def demoTimeRefVar : Var :=
  { demoBareVar with
    timeBi := [("$G.Z9".toList, [⟨Op.eq, "$G.Z9".toList⟩])] }

/-- A pool containing only `demoTimeRefVar`: its binary-time reference
`$G.Z9` is unresolved. -/
def demoTimeRefPool : List Var := [demoTimeRefVar]

/-- A variable at `$G.A1` whose only unit-date constraint requires the
date 2099-01-01. -/
def demoImpossibleVar : Var :=
  { demoBareVar with
    dateUni := attachUni "$G.A1".toList [⟨Op.eq, ⟨2099, 1, 1⟩⟩] }

/-- A candidate value: 2024-05-01 09:00:00, setup 24. -/
def demoValue : Value := ⟨⟨⟨2024, 5, 1⟩, ⟨9, 0, 0⟩⟩, 24⟩

/-- Item A of the spec's minimum-gap example: value 2024-05-02 09:00,
minimum gap 24 hours. -/
def demoGapA : Value := ⟨⟨⟨2024, 5, 2⟩, ⟨9, 0, 0⟩⟩, 24⟩

/-- Item B of the spec's minimum-gap example: value 2024-05-01 09:00,
minimum gap 48 hours. -/
def demoGapB : Value := ⟨⟨⟨2024, 5, 1⟩, ⟨9, 0, 0⟩⟩, 48⟩

/-- A source row whose *date* cell contains a time specification. -/
def demoMismatchRow : Row :=
  { asignatura := "Alg".toList, curso := 1, cuatrimestre := 1,
    fecha := "10:30".toList, hora := [], setupCell := none,
    column := ['B'], rownum := 2 }

/-! # Theorems -/

/-! ## Helper lemmas about the constraint-set mapping -/

theorem csetContains_iff_mem_keys {α : Type} (s : CSet α) (k : List Char) :
    csetContains s k = true ↔ k ∈ csetKeys s := by
  simp [csetContains, csetKeys, List.any_eq_true]

theorem csetSet_lookup_append {α : Type} (s : CSet α) (k : List Char) (v : List α)
    (h : csetContains s k = true) :
    csetLookup (csetSet s k v) k = csetLookup s k ++ v := by
  simp only [csetSet, h, if_true]
  induction s with
  | nil => simp [csetContains] at h
  | cons e rest ih =>
      by_cases hk : e.1 = k
      · simp [csetLookup, List.find?, hk]
      · have h' : csetContains rest k = true := by
          simpa [csetContains, hk] using h
        simp only [List.map_cons, if_neg hk]
        simpa [csetLookup, List.find?_cons, hk] using ih h'

theorem csetSet_keys {α : Type} (s : CSet α) (k : List Char) (v : List α)
    (h : csetContains s k = true) :
    csetKeys (csetSet s k v) = csetKeys s := by
  simp only [csetSet, h, if_true, csetKeys, List.map_map]
  apply List.map_congr_left
  intro e _
  by_cases hk : e.1 = k <;> simp [hk]

theorem csetSet_inv {α : Type} (s : CSet α) (k : List Char) (v : List α)
    (hs : csetNonEmptyInv s) (hv : v ≠ []) :
    csetNonEmptyInv (csetSet s k v) := by
  unfold csetSet
  split
  · intro e he
    rcases List.mem_map.mp he with ⟨e', he', rfl⟩
    by_cases hk : e'.1 = k
    · rw [if_pos hk]
      show e'.2 ++ v ≠ []
      simp only [ne_eq, List.append_eq_nil]
      rintro ⟨h1, h2⟩
      exact hv h2
    · simpa [hk] using hs e' he'
  · intro e he
    rcases List.mem_append.mp he with h | h
    · exact hs e h
    · rcases List.mem_singleton.mp h with rfl
      exact hv

end Exm

namespace Exm

/-! ## C8: the ConstraintSet operations and the non-empty invariant -/

/-- C8 (counterexample): looking an *absent* key up in an empty
`EXMConstraints` goes through the `defaultdict`, which inserts the key
bound to the empty list: after the lookup the mapping contains an entry
with an empty constraint list, so lookup does not preserve the invariant
"every key present maps to a non-empty list". -/
theorem c8_lookup_breaks_invariant :
    csetGet (csetEmpty BiC) ['k'] = (([] : List BiC), [(['k'], ([] : List BiC))]) ∧
      ¬ csetNonEmptyInv ((csetGet (csetEmpty BiC) ['k']).2) := by
  constructor
  · rfl
  · intro h
    exact h (['k'], []) (by simp [csetGet, csetEmpty, csetContains]) rfl

/-- C8 (amended): insertion of a non-empty list preserves the non-empty
invariant; insertion under an already-present key appends to the stored
list rather than replacing it and creates no new key; lookup of a present
key returns the stored list and leaves the mapping unchanged; but lookup
of an absent key auto-vivifies the key with an empty list and thereby
violates the invariant. -/
theorem c8_cset_operations (α : Type) (s : CSet α) (k : List Char) (v : List α) :
    (csetNonEmptyInv s → v ≠ [] → csetNonEmptyInv (csetSet s k v)) ∧
    (csetContains s k = true →
      csetLookup (csetSet s k v) k = csetLookup s k ++ v ∧
        csetKeys (csetSet s k v) = csetKeys s ∧
        csetGet s k = (csetLookup s k, s)) ∧
    (csetContains s k = false →
      csetGet s k = ([], s ++ [(k, [])]) ∧
        ¬ csetNonEmptyInv ((csetGet s k).2)) := by
  refine ⟨fun hs hv => csetSet_inv s k v hs hv, fun h => ⟨csetSet_lookup_append s k v h,
    csetSet_keys s k v h, ?_⟩, fun h => ⟨?_, ?_⟩⟩
  · simp [csetGet, h, csetLookup]
  · simp [csetGet, h]
  · simp only [csetGet, h, Bool.false_eq_true, if_false]
    intro hinv
    exact hinv (k, []) (by simp) rfl

/-- C8 (witness): the amended theorem applied at concrete inputs — an
insertion under the present key `"a"` appends, and a lookup of the absent
key `"z"` in the empty mapping breaks the invariant. -/
theorem c8_cset_operations_witness :
    (csetLookup (csetSet [(['a'], [(3 : Nat)])] ['a'] [7]) ['a'] =
        csetLookup [(['a'], [(3 : Nat)])] ['a'] ++ [7]) ∧
      ¬ csetNonEmptyInv ((csetGet (csetEmpty Nat) ['z']).2) :=
  ⟨((c8_cset_operations Nat [(['a'], [3])] ['a'] [7]).2.1 (by decide)).1,
    ((c8_cset_operations Nat (csetEmpty Nat) ['z'] []).2.2 (by decide)).2⟩

end Exm

namespace Exm

/-! ## C7: the domain filter is the conjunction of the unit constraints -/

/-- C7: a candidate value belongs to an item's filtered domain iff some
source candidate — of which it is the setup-stamped copy — satisfies every
unit-date constraint (through the unit-date dispatch, which compares the
date portion) and every unit-time constraint (through the unit-time
dispatch, which compares the time portion); and an item with no unit
constraints admits every candidate. -/
theorem c7_unit_filter_conjunction (v : Var) (domain : List Value) (val : Value) :
    (val ∈ filteredDomain v domain ↔
      ∃ w ∈ domain, val = { w with setup := v.setup } ∧
        (∀ e ∈ v.dateUni, ∀ c ∈ e.2, uniDateDispatch c.op w.dt c.const = true) ∧
        (∀ e ∈ v.timeUni, ∀ c ∈ e.2, uniTimeDispatch c.op w.dt c.const = true)) ∧
    (v.dateUni = csetEmpty UniDateC → v.timeUni = csetEmpty UniTimeC →
      filteredDomain v domain = domain.map fun w => { w with setup := v.setup }) := by
  constructor
  · simp only [filteredDomain, List.mem_map, List.mem_filter, uni_is_compatible,
      Bool.and_eq_true, List.all_eq_true]
    constructor
    · rintro ⟨w, ⟨hw, hd, ht⟩, rfl⟩
      exact ⟨w, hw, rfl, hd, ht⟩
    · rintro ⟨w, hw, rfl, hd, ht⟩
      exact ⟨w, ⟨hw, hd, ht⟩, rfl⟩
  · intro h1 h2
    simp [filteredDomain, uni_is_compatible, h1, h2, csetEmpty]

/-- C7 (witness): an item with no unit constraints admits the single
candidate of a one-element domain, stamped with the item's setup time. -/
theorem c7_unit_filter_conjunction_witness :
    filteredDomain demoBareVar [demoValue] =
      [demoValue].map fun w => { w with setup := demoBareVar.setup } :=
  (c7_unit_filter_conjunction demoBareVar [demoValue] demoValue).2 rfl rfl

end Exm

namespace Exm

/-! ## Calendar arithmetic: the lexicographic datetime order agrees with
the ordinal-seconds encoding on valid datetimes -/

theorem daysBeforeMonth_succ (y m : Nat) (h : 1 ≤ m) :
    daysBeforeMonth y (m + 1) = daysBeforeMonth y m + daysInMonth y m := by
  unfold daysBeforeMonth
  obtain ⟨m', rfl⟩ : ∃ m', m = m' + 1 := ⟨m - 1, by omega⟩
  have : m' + 1 + 1 - 1 = m' + 1 := by omega
  rw [this, List.range_succ, List.foldl_append]
  simp

theorem daysBeforeMonth_mono (y : Nat) {m m' : Nat} (h1 : 1 ≤ m) (h : m ≤ m') :
    daysBeforeMonth y m ≤ daysBeforeMonth y m' := by
  induction m' with
  | zero => omega
  | succ n ih =>
      rcases Nat.lt_or_ge m (n + 1) with hlt | hge
      · have hn1 : 1 ≤ n := by omega
        calc daysBeforeMonth y m ≤ daysBeforeMonth y n := ih (by omega)
          _ ≤ daysBeforeMonth y (n + 1) := by
              rw [daysBeforeMonth_succ y n hn1]; omega
      · have : m = n + 1 := by omega
        subst this; exact Nat.le_refl _


theorem daysBeforeMonth_13 (y : Nat) :
    daysBeforeMonth y 13 =
      if (y % 4 = 0 ∧ y % 100 ≠ 0) ∨ y % 400 = 0 then 366 else 365 := by
  show (List.range 12).foldl (fun acc i => acc + daysInMonth y (i + 1)) 0 = _
  simp only [List.range_succ, List.range_zero, List.foldl_append, List.foldl_cons,
    List.foldl_nil, daysInMonth]
  norm_num
  split <;> omega

theorem daysBeforeYear_succ (y : Nat) (h : 1 ≤ y) :
    daysBeforeYear (y + 1) =
      daysBeforeYear y +
        (if (y % 4 = 0 ∧ y % 100 ≠ 0) ∨ y % 400 = 0 then 366 else 365) := by
  unfold daysBeforeYear
  split <;> omega

theorem daysBeforeYear_mono {y y' : Nat} (h1 : 1 ≤ y) (h : y ≤ y') :
    daysBeforeYear y ≤ daysBeforeYear y' := by
  induction y' with
  | zero => omega
  | succ n ih =>
      rcases Nat.lt_or_ge y (n + 1) with hlt | hge
      · have hn1 : 1 ≤ n := by omega
        calc daysBeforeYear y ≤ daysBeforeYear n := ih (by omega)
          _ ≤ daysBeforeYear (n + 1) := by
              rw [daysBeforeYear_succ n hn1]; split <;> omega
      · have : y = n + 1 := by omega
        subst this; exact le_refl _


theorem date_trichotomy (a b : Date) :
    a.ltb b = true ∨ b.ltb a = true ∨ a = b := by
  rcases a with ⟨y1, m1, d1⟩
  rcases b with ⟨y2, m2, d2⟩
  simp only [Date.ltb, decide_eq_true_eq, Date.mk.injEq]
  omega

theorem time_trichotomy (a b : Time) :
    a.ltb b = true ∨ b.ltb a = true ∨ a = b := by
  rcases a with ⟨h1, m1, s1⟩
  rcases b with ⟨h2, m2, s2⟩
  simp only [Time.ltb, decide_eq_true_eq, Time.mk.injEq]
  omega

theorem dt_trichotomy (a b : DateTime) :
    a.ltb b = true ∨ b.ltb a = true ∨ a = b := by
  rcases a with ⟨da, ta⟩
  rcases b with ⟨db, tb⟩
  simp only [DateTime.ltb, decide_eq_true_eq, DateTime.mk.injEq]
  rcases date_trichotomy da db with h | h | h
  · exact Or.inl (Or.inl (by simpa using h))
  · exact Or.inr (Or.inl (Or.inl (by simpa using h)))
  · subst h
    rcases time_trichotomy ta tb with h | h | h
    · exact Or.inl (Or.inr ⟨rfl, by simpa using h⟩)
    · exact Or.inr (Or.inl (Or.inr ⟨rfl, by simpa using h⟩))
    · exact Or.inr (Or.inr ⟨rfl, h⟩)

theorem toOrdinal_lt_of_ltb {a b : Date} (ha : validDate a = true)
    (hb : validDate b = true) (h : a.ltb b = true) :
    a.toOrdinal < b.toOrdinal := by
  rcases a with ⟨y1, m1, d1⟩
  rcases b with ⟨y2, m2, d2⟩
  simp only [validDate, decide_eq_true_eq] at ha hb
  obtain ⟨ha1, ha2, ha3, ha4, ha5, ha6⟩ := ha
  obtain ⟨hb1, hb2, hb3, hb4, hb5, hb6⟩ := hb
  simp only [Date.ltb, decide_eq_true_eq] at h
  unfold Date.toOrdinal
  dsimp only
  rcases h with hy | ⟨hy, hm | ⟨hm, hd⟩⟩
  · have hts : daysBeforeMonth y1 m1 + d1 ≤ daysBeforeMonth y1 13 := by
      have h1 := daysBeforeMonth_succ y1 m1 ha3
      have h2 := @daysBeforeMonth_mono y1 (m1 + 1) 13 (by omega) (by omega)
      omega
    have h13 := daysBeforeMonth_13 y1
    have hsucc := daysBeforeYear_succ y1 ha1
    have hmono := @daysBeforeYear_mono (y1 + 1) y2 (by omega) (by omega)
    by_cases hc : (y1 % 4 = 0 ∧ y1 % 100 ≠ 0) ∨ y1 % 400 = 0
    · rw [if_pos hc] at h13 hsucc; omega
    · rw [if_neg hc] at h13 hsucc; omega
  · subst hy
    have hstep := daysBeforeMonth_succ y1 m1 ha3
    have hmono := @daysBeforeMonth_mono y1 (m1 + 1) m2 (by omega) (by omega)
    omega
  · subst hy; subst hm
    omega

theorem date_ltb_iff_toOrdinal {a b : Date} (ha : validDate a = true)
    (hb : validDate b = true) :
    a.ltb b = true ↔ a.toOrdinal < b.toOrdinal := by
  constructor
  · exact toOrdinal_lt_of_ltb ha hb
  · intro hlt
    rcases date_trichotomy a b with h | h | h
    · exact h
    · exact absurd (toOrdinal_lt_of_ltb hb ha h) (by omega)
    · subst h; exact absurd hlt (lt_irrefl _)

theorem dt_ltb_iff_totalSeconds {a b : DateTime} (ha : validDateTime a = true)
    (hb : validDateTime b = true) :
    a.ltb b = true ↔ a.totalSeconds < b.totalSeconds := by
  have had : validDate a.date = true := by
    simp only [validDateTime, decide_eq_true_eq] at ha; exact ha.1
  have hat : validTime a.time = true := by
    simp only [validDateTime, decide_eq_true_eq] at ha; exact ha.2
  have hbd : validDate b.date = true := by
    simp only [validDateTime, decide_eq_true_eq] at hb; exact hb.1
  have hbt : validTime b.time = true := by
    simp only [validDateTime, decide_eq_true_eq] at hb; exact hb.2
  have hta : a.time.hour ≤ 23 ∧ a.time.minute ≤ 59 ∧ a.time.second ≤ 59 := by
    simpa only [validTime, decide_eq_true_eq] using hat
  have htb : b.time.hour ≤ 23 ∧ b.time.minute ≤ 59 ∧ b.time.second ≤ 59 := by
    simpa only [validTime, decide_eq_true_eq] using hbt
  obtain ⟨hta1, hta2, hta3⟩ := hta
  obtain ⟨htb1, htb2, htb3⟩ := htb
  have hord := date_ltb_iff_toOrdinal had hbd
  have hordrev := date_ltb_iff_toOrdinal hbd had
  simp only [DateTime.ltb, DateTime.totalSeconds, decide_eq_true_eq]
  constructor
  · rintro (hd | ⟨hd, ht⟩)
    · have := hord.mp (by simpa using hd)
      omega
    · rw [hd]
      simp only [Time.ltb, decide_eq_true_eq] at ht
      omega
  · intro h
    rcases date_trichotomy a.date b.date with hd | hd | hd
    · exact Or.inl (by simpa using hd)
    · exact absurd (hordrev.mp hd) (by omega)
    · refine Or.inr ⟨hd, ?_⟩
      rw [hd] at h
      simp only [Time.ltb, decide_eq_true_eq]
      omega


/-! ## C5: the minimum-gap predicate is governed by the later item -/

/-- C5: for two distinct valid assigned values, `bi_difftime` holds
exactly when the absolute duration between the two values, in hours, is at
least the setup time of whichever item has the later value (the spec-side
`minimumGapSpec`, written with the absolute difference and the
later-value selector). -/
theorem c5_minimum_gap_later_governs (xi xj : Value)
    (hi : validDateTime xi.dt = true) (hj : validDateTime xj.dt = true)
    (hne : xi.dt ≠ xj.dt) :
    bi_difftime xi xj = true ↔ minimumGapSpec xi xj := by
  have hiff1 := dt_ltb_iff_totalSeconds hj hi
  have hiff2 := dt_ltb_iff_totalSeconds hi hj
  unfold bi_difftime minimumGapSpec
  by_cases hc : xj.dt.ltb xi.dt = true
  · rw [if_pos hc]
    have hlt : xj.dt.totalSeconds < xi.dt.totalSeconds := hiff1.mp hc
    have hc2 : xi.dt.ltb xj.dt = false := by
      cases hcase : xi.dt.ltb xj.dt with
      | false => rfl
      | true => exact absurd (hiff2.mp hcase) (by omega)
    rw [hc2, if_neg (by simp)]
    have hltQ : (xj.dt.totalSeconds : ℚ) < (xi.dt.totalSeconds : ℚ) := by
      exact_mod_cast hlt
    rw [abs_of_pos
      (by linarith : (0 : ℚ) < (xi.dt.totalSeconds : ℚ) - (xj.dt.totalSeconds : ℚ))]
    push_cast
    simp
  · have hc' : xj.dt.ltb xi.dt = false := by
      cases hcase : xj.dt.ltb xi.dt with
      | false => rfl
      | true => exact absurd hcase hc
    rw [if_neg hc]
    have hlt : xi.dt.ltb xj.dt = true := by
      rcases dt_trichotomy xi.dt xj.dt with h | h | h
      · exact h
      · exact absurd h hc
      · exact absurd h hne
    have hlt' : xi.dt.totalSeconds < xj.dt.totalSeconds := hiff2.mp hlt
    rw [hlt, if_pos rfl]
    have hltQ : (xi.dt.totalSeconds : ℚ) < (xj.dt.totalSeconds : ℚ) := by
      exact_mod_cast hlt'
    rw [abs_of_neg
        (by linarith : (xi.dt.totalSeconds : ℚ) - (xj.dt.totalSeconds : ℚ) < (0 : ℚ)),
      neg_sub]
    push_cast
    simp

/-- C5 (witness): the spec example — A at 2024-05-02 09:00 with gap 24, B
at 2024-05-01 09:00 with gap 48: since A is later, A governs. -/
theorem c5_minimum_gap_later_governs_witness :
    validDateTime demoGapA.dt = true ∧ validDateTime demoGapB.dt = true ∧
      demoGapA.dt ≠ demoGapB.dt ∧
      (bi_difftime demoGapA demoGapB = true ↔ minimumGapSpec demoGapA demoGapB) :=
  ⟨by decide, by decide, by decide,
    c5_minimum_gap_later_governs demoGapA demoGapB (by decide) (by decide) (by decide)⟩


/-! ## C4: an empty filtered domain is a reported fatal error -/

theorem cellname_in_emptyDomainMsg (v : Var) :
    ∃ s t, s ++ v.cellname ++ t = emptyDomainMsg v := by
  refine ⟨"Empty domain for variable '".toList ++ ['['],
    (List.replicate (12 - v.cellname.length) ' ' ++ varStrTail v) ++ [Char.ofNat 39], ?_⟩
  simp [emptyDomainMsg, varStr, padRightSp]

/-- C4: whenever some pool variable's filtered domain is empty, the
domain-construction loop of `main` aborts at the first such variable with
the `ERROR_EMPTY_DOMAIN` diagnostic, whose text contains the variable's
identity key; no variable/domain list is produced. -/
theorem c4_empty_domain_fatal (pool : List Var) (domain : List Value)
    (h : ∃ v ∈ pool, filteredDomain v domain = []) :
    ∃ w ∈ pool, filteredDomain w domain = [] ∧
      buildDomains pool domain = .error (emptyDomainMsg w) ∧
      ∃ s t, s ++ w.cellname ++ t = emptyDomainMsg w := by
  induction pool with
  | nil => simp at h
  | cons v rest ih =>
      by_cases hv : filteredDomain v domain = []
      · exact ⟨v, List.mem_cons_self v rest, hv,
          by simp [buildDomains, hv], cellname_in_emptyDomainMsg v⟩
      · obtain ⟨u, hu, hue⟩ := h
        have hur : u ∈ rest := by
          rcases List.mem_cons.mp hu with rfl | hr
          · exact absurd hue hv
          · exact hr
        obtain ⟨w, hw, hwe, heq, hinf⟩ := ih ⟨u, hur, hue⟩
        exact ⟨w, List.mem_cons_of_mem v hw, hwe,
          by simp [buildDomains, hv, heq, Except.map], hinf⟩

/-- C4 (witness): a variable demanding the date 2099-01-01 against a
one-slot candidate list on 2024-05-01 aborts with its identity in the
message. -/
theorem c4_empty_domain_fatal_witness :
    (∃ v ∈ [demoImpossibleVar], filteredDomain v [demoValue] = []) ∧
      ∃ w ∈ [demoImpossibleVar], filteredDomain w [demoValue] = [] ∧
        buildDomains [demoImpossibleVar] [demoValue] = .error (emptyDomainMsg w) ∧
        ∃ s t, s ++ w.cellname ++ t = emptyDomainMsg w :=
  ⟨⟨demoImpossibleVar, by decide⟩,
    c4_empty_domain_fatal [demoImpossibleVar] [demoValue]
      ⟨demoImpossibleVar, by decide⟩⟩


/-! ## C2: unresolved binary constraints are silently dropped at assembly -/

theorem postsFor_target (i j : Var) (p : Posted) (hp : p ∈ postsFor i j) :
    p.target = j.cellname := by
  unfold postsFor at hp
  by_cases h : i.cellname = j.cellname
  · simp [h] at hp
  · simp only [if_neg h, List.mem_append] at hp
    rcases hp with (h1 | h2) | h3
    · split at h1
      · rcases List.mem_singleton.mp h1 with rfl; rfl
      · simp at h1
    · split at h2
      · rcases List.mem_map.mp h2 with ⟨c, _, rfl⟩; rfl
      · simp at h2
    · split at h3
      · rcases List.mem_map.mp h3 with ⟨c, _, rfl⟩; rfl
      · simp at h3

theorem assemble_target_mem (pool : List Var) (p : Posted)
    (hp : p ∈ assembleConstraints pool) : ∃ j ∈ pool, p.target = j.cellname := by
  unfold assembleConstraints at hp
  rcases List.mem_flatten.mp hp with ⟨L, hL, hpL⟩
  rcases List.mem_map.mp hL with ⟨i, _, rfl⟩
  rcases List.mem_flatten.mp hpL with ⟨M, hM, hpM⟩
  rcases List.mem_map.mp hM with ⟨j, hj, rfl⟩
  exact ⟨j, hj, postsFor_target i j p hpM⟩

/-- C2 (counterexample): a pool whose only variable carries a binary time
constraint on the key `$G.Z9`, which no pool member bears: the assembly
loop completes normally and posts *no* binding at all — the unresolved
constraint is silently dropped, with no fatal error and no mention of the
target coordinate. -/
theorem c2_unresolved_ref_not_fatal :
    csetKeys demoTimeRefVar.timeBi = ["$G.Z9".toList] ∧
      poolContains demoTimeRefPool "$G.Z9".toList = false ∧
      assembleConstraints demoTimeRefPool = [] := by
  refine ⟨by decide, by decide, by decide⟩

/-- C2 (amended): during CSP assembly a binary (date or time) constraint
whose referenced identity key matches no pool member is silently dropped:
assembly always completes (the embedded loop is total, with no error
path), and no posted binding ever targets the missing key. -/
theorem c2_unresolved_ref_dropped (pool : List Var) (k : List Char)
    (habs : ∀ j ∈ pool, j.cellname ≠ k) :
    ∀ p ∈ assembleConstraints pool, Posted.target p ≠ k := by
  intro p hp
  obtain ⟨j, hj, ht⟩ := assemble_target_mem pool p hp
  rw [ht]
  exact habs j hj

/-- C2 (witness): the amended theorem at the demo pool. -/
theorem c2_unresolved_ref_dropped_witness :
    (∀ j ∈ demoTimeRefPool, j.cellname ≠ "$G.Z9".toList) ∧
      ∀ p ∈ assembleConstraints demoTimeRefPool, Posted.target p ≠ "$G.Z9".toList :=
  ⟨by decide, c2_unresolved_ref_dropped demoTimeRefPool "$G.Z9".toList (by decide)⟩

/-! ## C1: the resolver's missing-reference scan covers only binary-date
constraints -/

/-- C1: when `get_next_indirect` reports no missing reference, every key
referenced by any *binary-date* constraint of any pool variable is present
in the pool (the guarantee the code actually provides); but the scan never
examines the binary-time sets: `demoTimeRefPool` terminates the closure
loop (`get_next_indirect` returns `none`) even though the binary-time key
`$G.Z9` of its only variable is absent from the pool — contradicting the
claim that at termination every binary-date *and binary-time* reference is
present.  The source's own docstring promises "any binary constraint
(either date or time)". -/
theorem c1_resolver_ignores_time_refs :
    (∀ pool : List Var, get_next_indirect pool = none →
      ∀ v ∈ pool, ∀ k ∈ csetKeys v.dateBi, poolContains pool k = true) ∧
      get_next_indirect demoTimeRefPool = none ∧
      "$G.Z9".toList ∈ csetKeys demoTimeRefVar.timeBi ∧
      poolContains demoTimeRefPool "$G.Z9".toList = false := by
  refine ⟨?_, by decide, by decide, by decide⟩
  intro pool h v hv k hk
  have h1 : ((csetKeys v.dateBi).findSome? fun ikey =>
      if poolContains pool ikey then none
      else some (parseCellName ikey)) = none := by
    have := List.findSome?_eq_none_iff.mp h v hv
    simpa using this
  have h2 := List.findSome?_eq_none_iff.mp h1 k hk
  by_cases hc : poolContains pool k = true
  · exact hc
  · rw [if_neg (by simp [hc])] at h2
    exact absurd h2 (by simp)


/-! ## C3: a date/time category mismatch is logged but not fatal -/

/-- C3 (counterexample): a row whose *date* cell reads `10:30` (a
unit-time fragment).  `get_constraints` on the date cell yields one
unit-time constraint and nothing else, yet `get_variables` succeeds: it
returns one variable — the row is *not* rejected, execution does *not*
halt, and the mismatch surfaces only as the logged `ERROR_TIME_IN_DATE`
message. -/
theorem c3_mismatch_not_fatal :
    Except.toOption (Except.map (fun p => (p.1.length, p.2))
        (get_variables "GII".toList [] none none false [demoMismatchRow])) =
      some (1, [LogMsg.timeInDate "B2".toList]) ∧
      Except.toOption (Except.map (fun r => (r.1.length, r.2.1.length, r.2.2.length))
        (get_constraints demoMismatchRow.fecha "GII".toList "B2".toList)) =
      some (0, 1, 0) := by
  constructor <;> decide

/-- C3 (amended): when a row's date cell parses to a constraint list that
contains a unit-time fragment (and both cells parse without a syntax
error), the item builder does *not* fail: it logs the time-in-date
diagnostic naming the offending cell, still produces the ScheduleItem,
and attaches to the item only the correctly-placed fragments — the
misplaced unit-time fragments of the date cell are discarded. -/
theorem c3_mismatch_logged_and_dropped (sheetname : List Char) (hasSetup : Bool) (r : Row)
    (dUD : List UniDateC) (dUT : List UniTimeC) (dB : List BiC)
    (tUD : List UniDateC) (tUT : List UniTimeC) (tB : List BiC)
    (hf : get_constraints r.fecha sheetname (r.column ++ natStr r.rownum) =
      .ok (dUD, dUT, dB))
    (hh : get_constraints r.hora sheetname (r.column ++ natStr r.rownum) =
      .ok (tUD, tUT, tB))
    (hmis : dUT ≠ []) :
    ∃ v errs, processRow sheetname hasSetup r = .ok (v, errs) ∧
      LogMsg.timeInDate (r.column ++ natStr r.rownum) ∈ errs ∧
      v.cellname = '$' :: sheetname ++ '.' :: (r.column ++ natStr r.rownum) ∧
      v.timeUni = attachUni v.cellname tUT ∧
      v.dateUni = attachUni v.cellname dUD ∧
      v.timeBi = attachBi tB ∧
      v.dateBi = attachBi dB := by
  have key : processRow sheetname hasSetup r = .ok
      ({ grade := sheetname, name := r.asignatura, course := r.curso,
         semester := r.cuatrimestre, date := sentinelDT, time := midnight,
         setup := setupOf hasSetup r.setupCell,
         cellname := '$' :: sheetname ++ '.' :: (r.column ++ natStr r.rownum),
         dateUni := attachUni ('$' :: sheetname ++ '.' :: (r.column ++ natStr r.rownum)) dUD,
         timeUni := attachUni ('$' :: sheetname ++ '.' :: (r.column ++ natStr r.rownum)) tUT,
         dateBi := attachBi dB, timeBi := attachBi tB },
        (if dUT ≠ [] then [LogMsg.timeInDate (r.column ++ natStr r.rownum)] else []) ++
          (if tUD ≠ [] then [LogMsg.dateInTime (r.column ++ natStr r.rownum)] else [])) := by
    simp only [processRow, hf, hh]
    rfl
  refine ⟨_, _, key, ?_, rfl, rfl, rfl, rfl, rfl⟩
  exact List.mem_append_left _ (by rw [if_pos hmis]; exact List.mem_singleton_self _)

/-- C3 (witness): the amended theorem at the concrete mismatched row. -/
theorem c3_mismatch_logged_and_dropped_witness :
    get_constraints demoMismatchRow.fecha "GII".toList
        (demoMismatchRow.column ++ natStr demoMismatchRow.rownum) =
      .ok ([], [⟨Op.eq, ⟨10, 30, 0⟩⟩], []) ∧
      get_constraints demoMismatchRow.hora "GII".toList
        (demoMismatchRow.column ++ natStr demoMismatchRow.rownum) = .ok ([], [], []) ∧
      ∃ v errs, processRow "GII".toList false demoMismatchRow = .ok (v, errs) ∧
        LogMsg.timeInDate (demoMismatchRow.column ++ natStr demoMismatchRow.rownum) ∈ errs ∧
        v.cellname = '$' :: "GII".toList ++ '.' ::
          (demoMismatchRow.column ++ natStr demoMismatchRow.rownum) ∧
        v.timeUni = attachUni v.cellname [] ∧
        v.dateUni = attachUni v.cellname [] ∧
        v.timeBi = attachBi [] ∧
        v.dateBi = attachBi [] := by
  refine ⟨?hf, ?hh, c3_mismatch_logged_and_dropped "GII".toList false demoMismatchRow
    [] [⟨Op.eq, ⟨10, 30, 0⟩⟩] [] [] [] [] ?_ ?_ (by simp)⟩
  case hf => rfl
  case hh => rfl
  · rfl
  · rfl


/-! ## C6: the parser pipeline (split, skip blanks, priority order,
fatal on unmatched fragments) -/

theorem specClassify_cdate_iff (f sheet : List Char) (c : UniDateC) :
    specClassify f sheet = some (Classified.cdate c) ↔
      getUniDateConstraint f = some c := by
  unfold specClassify
  cases h1 : getUniDateConstraint f <;> cases h2 : getUniTimeConstraint f <;>
    cases h3 : getBiconstraint f sheet <;> simp [Option.orElse]

theorem specClassify_ctime_iff (f sheet : List Char) (c : UniTimeC) :
    specClassify f sheet = some (Classified.ctime c) ↔
      getUniDateConstraint f = none ∧ getUniTimeConstraint f = some c := by
  unfold specClassify
  cases h1 : getUniDateConstraint f <;> cases h2 : getUniTimeConstraint f <;>
    cases h3 : getBiconstraint f sheet <;> simp [Option.orElse]

theorem specClassify_cbi_iff (f sheet : List Char) (c : BiC) :
    specClassify f sheet = some (Classified.cbi c) ↔
      getUniDateConstraint f = none ∧ getUniTimeConstraint f = none ∧
        getBiconstraint f sheet = some c := by
  unfold specClassify
  cases h1 : getUniDateConstraint f <;> cases h2 : getUniTimeConstraint f <;>
    cases h3 : getBiconstraint f sheet <;> simp [Option.orElse]

theorem specClassify_none_iff (f sheet : List Char) :
    specClassify f sheet = none ↔
      getUniDateConstraint f = none ∧ getUniTimeConstraint f = none ∧
        getBiconstraint f sheet = none := by
  unfold specClassify
  cases h1 : getUniDateConstraint f <;> cases h2 : getUniTimeConstraint f <;>
    cases h3 : getBiconstraint f sheet <;> simp [Option.orElse]

theorem specFold_cons_some (sheet cell f : List Char) (frags : List (List Char))
    (cl : Classified) (h : specClassify f sheet = some cl) :
    specFold sheet cell (f :: frags) =
      Except.map (prependC cl) (specFold sheet cell frags) := by
  unfold specFold
  rw [List.find?_cons_of_neg _ (by simp [h])]
  cases hfind : frags.find? (fun f => (specClassify f sheet).isNone) with
  | some g => simp [Except.map]
  | none =>
      rcases cl with c | c | c
      · have hd := (specClassify_cdate_iff f sheet c).mp h
        simp [List.filterMap_cons, hd, Except.map, prependC]
      · obtain ⟨hd, ht⟩ := (specClassify_ctime_iff f sheet c).mp h
        simp [List.filterMap_cons, hd, ht, Except.map, prependC]
      · obtain ⟨hd, ht, hb⟩ := (specClassify_cbi_iff f sheet c).mp h
        simp [List.filterMap_cons, hd, ht, hb, Except.map, prependC]

theorem goConstraints_eq_specFold (sheet cell : List Char) (fs : List (List Char)) :
    goConstraints sheet cell fs = specFold sheet cell (fs.filter fun f => ! isBlank f) := by
  induction fs with
  | nil => rfl
  | cons f fs ih =>
      by_cases hb : isBlank f = true
      · rw [List.filter_cons_of_neg (by simp [hb])]
        rw [goConstraints, if_pos hb]
        exact ih
      · have hb' : isBlank f = false := by
          cases hcase : isBlank f
          · rfl
          · exact absurd hcase hb
        rw [List.filter_cons_of_pos (by simp [hb'])]
        rw [goConstraints, if_neg (by simp [hb'])]
        cases hd : getUniDateConstraint f with
        | some c =>
            rw [specFold_cons_some sheet cell f _ (Classified.cdate c)
              ((specClassify_cdate_iff f sheet c).mpr hd)]
            rw [ih]
            cases specFold sheet cell (fs.filter fun f => ! isBlank f) <;>
              simp [Except.map, prependC]
        | none =>
            cases ht : getUniTimeConstraint f with
            | some c =>
                rw [specFold_cons_some sheet cell f _ (Classified.ctime c)
                  ((specClassify_ctime_iff f sheet c).mpr ⟨hd, ht⟩)]
                rw [ih]
                cases specFold sheet cell (fs.filter fun f => ! isBlank f) <;>
                  simp [Except.map, prependC]
            | none =>
                cases hbi : getBiconstraint f sheet with
                | some c =>
                    rw [specFold_cons_some sheet cell f _ (Classified.cbi c)
                      ((specClassify_cbi_iff f sheet c).mpr ⟨hd, ht, hbi⟩)]
                    rw [ih]
                    cases specFold sheet cell (fs.filter fun f => ! isBlank f) <;>
                      simp [Except.map, prependC]
                | none =>
                    unfold specFold
                    rw [List.find?_cons_of_pos _
                      (by simp [(specClassify_none_iff f sheet).mpr ⟨hd, ht, hbi⟩])]

theorem sheet_cell_in_errMsg (frag sheet cell : List Char) :
    (∃ s t, s ++ sheet ++ t = errConstraintMsg frag sheet cell) ∧
      ∃ s t, s ++ cell ++ t = errConstraintMsg frag sheet cell := by
  constructor
  · refine ⟨("Syntax error: The content '".toList ++ frag) ++
      "' found in the register '$".toList,
      ('.' :: cell) ++ "' is not a valid constraint specification".toList, ?_⟩
    simp [errConstraintMsg]
  · refine ⟨("Syntax error: The content '".toList ++ frag) ++
      "' found in the register '$".toList ++ sheet ++ ['.'],
      "' is not a valid constraint specification".toList, ?_⟩
    simp [errConstraintMsg]

/-- C6: `get_constraints` coincides with the spec-side pipeline — split
the cell text on commas, skip all-whitespace fragments, classify every
remaining fragment by trying the unit-date pattern, then the unit-time
pattern, then the binary pattern, keeping the first success — and a
fragment matching none of the three makes the whole call a fatal error
(nothing is returned for the cell) whose message carries the sheet name
and the location. -/
theorem c6_parser_pipeline (l sheet cell : List Char) :
    get_constraints l sheet cell = getConstraintsSpec l sheet cell ∧
      ∀ msg, get_constraints l sheet cell = .error msg →
        (∃ s t, s ++ sheet ++ t = msg) ∧ ∃ s t, s ++ cell ++ t = msg := by
  have hmain : get_constraints l sheet cell = getConstraintsSpec l sheet cell := by
    unfold get_constraints getConstraintsSpec
    by_cases hl : l = []
    · subst hl
      rw [if_pos rfl]
      rfl
    · rw [if_neg hl]
      exact goConstraints_eq_specFold sheet cell (l.splitOn ',')
  refine ⟨hmain, ?_⟩
  intro msg h
  rw [hmain] at h
  unfold getConstraintsSpec specFold at h
  rcases hfind : (((l.splitOn ',').filter fun f => ! isBlank f).find?
      fun f => (specClassify f sheet).isNone) with _ | f
  · rw [hfind] at h
    simp at h
  · rw [hfind] at h
    simp only [Except.error.injEq] at h
    rw [← h]
    exact sheet_cell_in_errMsg f sheet cell

/-- C6 (witness): on the cell text `xyz` (a fragment matching none of the
three patterns) the pipeline equality holds and the fatal message carries
the sheet `GII` and the location `B2`. -/
theorem c6_parser_pipeline_witness :
    get_constraints "xyz".toList "GII".toList "B2".toList =
      getConstraintsSpec "xyz".toList "GII".toList "B2".toList ∧
      (∃ s t, s ++ "GII".toList ++ t =
        errConstraintMsg "xyz".toList "GII".toList "B2".toList) ∧
      ∃ s t, s ++ "B2".toList ++ t =
        errConstraintMsg "xyz".toList "GII".toList "B2".toList :=
  ⟨(c6_parser_pipeline "xyz".toList "GII".toList "B2".toList).1,
    (c6_parser_pipeline "xyz".toList "GII".toList "B2".toList).2
      (errConstraintMsg "xyz".toList "GII".toList "B2".toList) rfl⟩


/-! ## Character-class and scanning lemmas for the parser proofs -/

theorem isDigit_not_alpha {c : Char} (h : c.isDigit = true) : c.isAlpha = false := by
  simp only [Char.isDigit, Char.isAlpha, Char.isUpper, Char.isLower,
    Bool.and_eq_true, Bool.or_eq_false_iff, Bool.and_eq_false_iff,
    decide_eq_true_eq, decide_eq_false_iff_not, ge_iff_le, UInt32.le_def,
    BitVec.le_def] at *
  have e48 : (UInt32.toBitVec 48).toNat = 48 := rfl
  have e57 : (UInt32.toBitVec 57).toNat = 57 := rfl
  have e65 : (UInt32.toBitVec 65).toNat = 65 := rfl
  have e90 : (UInt32.toBitVec 90).toNat = 90 := rfl
  have e97 : (UInt32.toBitVec 97).toNat = 97 := rfl
  have e122 : (UInt32.toBitVec 122).toNat = 122 := rfl
  omega

theorem isPySpace_cases {c : Char} (h : isPySpace c = true) :
    c = ' ' ∨ c = '\t' ∨ c = '\n' ∨ c = '\r' ∨ c = Char.ofNat 11 ∨ c = Char.ofNat 12 := by
  simpa [isPySpace] using h

theorem digit_not_pyspace {c : Char} (h : c.isDigit = true) : isPySpace c = false := by
  cases hs : isPySpace c
  · rfl
  · rcases isPySpace_cases hs with rfl | rfl | rfl | rfl | rfl | rfl <;> exact absurd h (by decide)

theorem alpha_not_pyspace {c : Char} (h : c.isAlpha = true) : isPySpace c = false := by
  cases hs : isPySpace c
  · rfl
  · rcases isPySpace_cases hs with rfl | rfl | rfl | rfl | rfl | rfl <;> exact absurd h (by decide)

theorem digit_ne_dot {c : Char} (h : c.isDigit = true) : c ≠ '.' := by
  intro hc; subst hc; exact absurd h (by decide)

theorem alpha_ne_dot {c : Char} (h : c.isAlpha = true) : c ≠ '.' := by
  intro hc; subst hc; exact absurd h (by decide)

theorem digitChar_isDigit {k : Nat} (h : k ≤ 9) : (Nat.digitChar k).isDigit = true := by
  interval_cases k <;> decide

theorem digitVal_digitChar {k : Nat} (h : k ≤ 9) : digitVal (Nat.digitChar k) = k := by
  interval_cases k <;> decide

theorem dropSpaces_append_spaces {sp : List Char} (h : ∀ c ∈ sp, isPySpace c = true)
    (l : List Char) : dropSpaces (sp ++ l) = dropSpaces l := by
  induction sp with
  | nil => rfl
  | cons c cs ih =>
      have hc := h c (List.mem_cons_self c cs)
      simp only [List.cons_append, dropSpaces, hc, if_true]
      exact ih (fun d hd => h d (List.mem_cons_of_mem c hd))

theorem dropSpaces_cons_of_not {c : Char} (h : isPySpace c = false) (l : List Char) :
    dropSpaces (c :: l) = c :: l := by
  simp [dropSpaces, h]

theorem takeWhile_append_all {p : Char → Bool} {L : List Char}
    (hL : ∀ c ∈ L, p c = true) (rest : List Char) :
    List.takeWhile p (L ++ rest) = L ++ List.takeWhile p rest := by
  induction L with
  | nil => rfl
  | cons c cs ih =>
      have hc := hL c (List.mem_cons_self c cs)
      simp only [List.cons_append, List.takeWhile_cons, hc, if_true]
      rw [ih (fun d hd => hL d (List.mem_cons_of_mem c hd))]

theorem dropWhile_append_all {p : Char → Bool} {L : List Char}
    (hL : ∀ c ∈ L, p c = true) (rest : List Char) :
    List.dropWhile p (L ++ rest) = List.dropWhile p rest := by
  induction L with
  | nil => rfl
  | cons c cs ih =>
      have hc := hL c (List.mem_cons_self c cs)
      simp only [List.cons_append, List.dropWhile_cons, hc, if_true]
      exact ih (fun d hd => hL d (List.mem_cons_of_mem c hd))

theorem takeWhile_all {p : Char → Bool} {L : List Char} (hL : ∀ c ∈ L, p c = true) :
    List.takeWhile p L = L := by
  have := takeWhile_append_all hL []
  simpa using this

theorem takeWhile_cons_false {p : Char → Bool} {c : Char} (h : p c = false)
    (l : List Char) : List.takeWhile p (c :: l) = [] := by
  simp [List.takeWhile_cons, h]

end Exm

namespace Exm

theorem digit_ne_eqch {c : Char} (h : c.isDigit = true) : c ≠ '=' := by
  intro hc; subst hc; exact absurd h (by decide)

theorem pyspace_ne_eqch {c : Char} (h : isPySpace c = true) : c ≠ '=' := by
  rcases isPySpace_cases h with rfl|rfl|rfl|rfl|rfl|rfl <;> decide

theorem parseOp_text (op : Op) {c : Char} (hc : c ≠ '=') (r : List Char) :
    parseOp (op.text ++ c :: r) = (some op, c :: r) := by
  cases op <;> (unfold parseOp Op.text; split <;> simp_all) <;>
    (rename_i hfall heq; exact hfall _ heq.symm)

theorem dropSpaces_op_text (op : Op) (l : List Char) :
    dropSpaces (op.text ++ l) = op.text ++ l := by
  cases op <;> rfl

theorem dropSpaces_spaces_cons {sp : List Char} (hsp : ∀ x ∈ sp, isPySpace x = true)
    {c : Char} (hc : isPySpace c = false) (r : List Char) :
    dropSpaces (sp ++ c :: r) = c :: r := by
  rw [dropSpaces_append_spaces hsp, dropSpaces_cons_of_not hc]

theorem pad4_cons (y : Nat) : pad4 y = Nat.digitChar (y / 1000 % 10) ::
    Nat.digitChar (y / 100 % 10) :: Nat.digitChar (y / 10 % 10) :: Nat.digitChar (y % 10) :: [] := rfl

theorem parseExactDigits4_pad4 (y : Nat) (hy : y ≤ 9999) (r : List Char) :
    parseExactDigits 4 0 (pad4 y ++ r) = some (y, r) := by
  have h1 : y / 1000 % 10 ≤ 9 := by omega
  have h2 : y / 100 % 10 ≤ 9 := by omega
  have h3 : y / 10 % 10 ≤ 9 := by omega
  have h4 : y % 10 ≤ 9 := by omega
  rw [pad4_cons]
  simp only [List.cons_append, List.nil_append, parseExactDigits,
    digitChar_isDigit h1, digitChar_isDigit h2, digitChar_isDigit h3, digitChar_isDigit h4,
    if_true, digitVal_digitChar h1, digitVal_digitChar h2, digitVal_digitChar h3,
    digitVal_digitChar h4]
  simp only [Option.some.injEq, Prod.mk.injEq]
  exact ⟨by omega, rfl⟩

end Exm

namespace Exm

theorem pad2_cons (n : Nat) :
    pad2 n = Nat.digitChar (n / 10 % 10) :: Nat.digitChar (n % 10) :: [] := rfl

theorem parseD12_pad2 (n : Nat) (hn : n ≤ 99) (r : List Char) :
    parseD12 (pad2 n ++ r) = some (n, r) := by
  have h1 : n / 10 % 10 ≤ 9 := by omega
  have h2 : n % 10 ≤ 9 := by omega
  rw [pad2_cons]
  simp only [List.cons_append, List.nil_append, parseD12,
    digitChar_isDigit h1, digitChar_isDigit h2, if_true,
    digitVal_digitChar h1, digitVal_digitChar h2]
  simp only [Option.some.injEq, Prod.mk.injEq]
  exact ⟨by omega, trivial⟩

theorem parseMonthDay_pads (m d : Nat) (hm : m ≤ 99) (hd : d ≤ 99)
    {sep : Char} (hsep : sep = '/' ∨ sep = '-') (r : List Char) :
    parseMonthDay (pad2 m ++ sep :: (pad2 d ++ r)) = some (m, d) := by
  have h1 : m / 10 % 10 ≤ 9 := by omega
  have h2 : m % 10 ≤ 9 := by omega
  unfold parseMonthDay parseMonthDay2
  rw [pad2_cons]
  simp only [List.cons_append, List.nil_append]
  rw [if_pos ⟨digitChar_isDigit h1, digitChar_isDigit h2, hsep⟩]
  rw [parseD12_pad2 d hd r]
  simp only [Option.map_some', Option.orElse, Option.some.injEq, Prod.mk.injEq]
  simp only [digitVal_digitChar h1, digitVal_digitChar h2]
  exact ⟨by omega, trivial⟩

theorem parseHourColon_pad2 (n : Nat) (hn : n ≤ 99) (r : List Char) :
    parseHourColon (pad2 n ++ ':' :: r) = some (n, r) := by
  have h1 : n / 10 % 10 ≤ 9 := by omega
  have h2 : n % 10 ≤ 9 := by omega
  rw [pad2_cons]
  simp only [List.cons_append, List.nil_append, parseHourColon,
    digitChar_isDigit h1, digitChar_isDigit h2, if_true,
    digitVal_digitChar h1, digitVal_digitChar h2]
  simp only [Option.some.injEq, Prod.mk.injEq]
  exact ⟨by omega, trivial⟩

theorem parseSeconds_pad2 (n : Nat) (hn : n ≤ 99) (r : List Char) :
    parseSeconds (':' :: (pad2 n ++ r)) = (n, r) := by
  have h := parseD12_pad2 n hn r
  simp [parseSeconds, h]

end Exm

namespace Exm

theorem pyspace_not_digit {c : Char} (h : isPySpace c = true) : c.isDigit = false := by
  rcases isPySpace_cases h with rfl|rfl|rfl|rfl|rfl|rfl <;> decide

theorem getUniDateConstraint_canonical (op : Op) (y m d : Nat) (sp r : List Char)
    (hsp : ∀ c ∈ sp, isPySpace c = true)
    (hy : y ≤ 9999) (hm : m ≤ 99) (hd : d ≤ 99)
    (hval : validDate ⟨y, m, d⟩ = true) {sep1 sep2 : Char}
    (h1 : sep1 = '/' ∨ sep1 = '-') (h2 : sep2 = '/' ∨ sep2 = '-') :
    getUniDateConstraint
        (op.text ++ (sp ++ (pad4 y ++ (sep1 :: (pad2 m ++ (sep2 :: (pad2 d ++ r))))))) =
      some ⟨op, ⟨y, m, d⟩⟩ := by
  have hy1 : y / 1000 % 10 ≤ 9 := by omega
  have hddig : (Nat.digitChar (y / 1000 % 10)).isDigit = true := digitChar_isDigit hy1
  have hne : Nat.digitChar (y / 1000 % 10) ≠ '=' := digit_ne_eqch hddig
  have hnsp : isPySpace (Nat.digitChar (y / 1000 % 10)) = false := digit_not_pyspace hddig
  have hop : parseOp
      (op.text ++ (sp ++ (pad4 y ++ (sep1 :: (pad2 m ++ (sep2 :: (pad2 d ++ r))))))) =
      (some op, sp ++ (pad4 y ++ (sep1 :: (pad2 m ++ (sep2 :: (pad2 d ++ r)))))) := by
    rcases sp with _ | ⟨c, cs⟩
    · simp only [List.nil_append]
      rw [pad4_cons]
      simp only [List.cons_append, List.nil_append]
      rw [parseOp_text op hne]
    · have hcsp := hsp c (List.mem_cons_self c cs)
      simp only [List.cons_append]
      exact parseOp_text op (pyspace_ne_eqch hcsp) _
  have hdrop2 : dropSpaces (sp ++ (pad4 y ++ (sep1 :: (pad2 m ++ (sep2 :: (pad2 d ++ r)))))) =
      pad4 y ++ (sep1 :: (pad2 m ++ (sep2 :: (pad2 d ++ r)))) := by
    rw [dropSpaces_append_spaces hsp]
    rw [pad4_cons]
    simp only [List.cons_append, List.nil_append]
    rw [dropSpaces_cons_of_not hnsp]
  have hdig := parseExactDigits4_pad4 y hy (sep1 :: (pad2 m ++ (sep2 :: (pad2 d ++ r))))
  have hmd := parseMonthDay_pads m d hm hd h2 r
  unfold getUniDateConstraint
  simp only [dropSpaces_op_text, hop, hdrop2, hdig, Option.bind_eq_bind, Option.some_bind]
  rcases h1 with rfl | rfl <;>
    simp [hmd, hval, Option.getD]

end Exm

namespace Exm

theorem getUniTimeConstraint_canonical (op : Op) (h mi s : Nat) (sp r : List Char)
    (hsp : ∀ c ∈ sp, isPySpace c = true)
    (hh : h ≤ 99) (hmi : mi ≤ 99) (hs : s ≤ 99)
    (hval : validTime ⟨h, mi, s⟩ = true)
    (hq : (parseQualifier (dropSpaces r)).1 = some true → 12 ≤ h) :
    getUniTimeConstraint
        (op.text ++ (sp ++ (pad2 h ++ (':' :: (pad2 mi ++ (':' :: (pad2 s ++ r))))))) =
      some ⟨op, ⟨h, mi, s⟩⟩ := by
  have hh1 : h / 10 % 10 ≤ 9 := by omega
  have hddig : (Nat.digitChar (h / 10 % 10)).isDigit = true := digitChar_isDigit hh1
  have hne : Nat.digitChar (h / 10 % 10) ≠ '=' := digit_ne_eqch hddig
  have hnsp : isPySpace (Nat.digitChar (h / 10 % 10)) = false := digit_not_pyspace hddig
  have hop : parseOp
      (op.text ++ (sp ++ (pad2 h ++ (':' :: (pad2 mi ++ (':' :: (pad2 s ++ r))))))) =
      (some op, sp ++ (pad2 h ++ (':' :: (pad2 mi ++ (':' :: (pad2 s ++ r)))))) := by
    rcases sp with _ | ⟨c, cs⟩
    · simp only [List.nil_append]
      rw [pad2_cons]
      simp only [List.cons_append, List.nil_append]
      rw [parseOp_text op hne]
    · have hcsp := hsp c (List.mem_cons_self c cs)
      simp only [List.cons_append]
      exact parseOp_text op (pyspace_ne_eqch hcsp) _
  have hdrop2 : dropSpaces (sp ++ (pad2 h ++ (':' :: (pad2 mi ++ (':' :: (pad2 s ++ r)))))) =
      pad2 h ++ (':' :: (pad2 mi ++ (':' :: (pad2 s ++ r)))) := by
    rw [dropSpaces_append_spaces hsp]
    rw [pad2_cons]
    simp only [List.cons_append, List.nil_append]
    rw [dropSpaces_cons_of_not hnsp]
  have hhc := parseHourColon_pad2 h hh (pad2 mi ++ (':' :: (pad2 s ++ r)))
  have hmic := parseD12_pad2 mi hmi (':' :: (pad2 s ++ r))
  have hsec := parseSeconds_pad2 s hs r
  rcases hpq : parseQualifier (dropSpaces r) with ⟨q0, rest0⟩
  have hadj : (if q0 = some true ∧ h < 12 then h + 12 else h) = h := by
    rcases q0 with _ | b
    · simp
    · rcases b
      · simp
      · have h12 := hq (by rw [hpq])
        rw [if_neg]
        rintro ⟨-, hlt⟩
        omega
  unfold getUniTimeConstraint
  simp only [dropSpaces_op_text, hop, hdrop2, hhc, hmic, hsec, hpq, hadj,
    Option.bind_eq_bind, Option.some_bind]
  simp [hval, Option.getD]

end Exm

namespace Exm

theorem dotSplits_no_dot {l : List Char} (h : '.' ∉ l) : dotSplits l = [] := by
  induction l with
  | nil => rfl
  | cons c cs ih =>
      have hc : c ≠ '.' := fun hc => h (hc ▸ List.mem_cons_self c cs)
      simp only [dotSplits, if_neg hc, List.nil_append]
      rw [ih (fun hm => h (List.mem_cons_of_mem c hm))]
      rfl

theorem dotSplits_append_last (p t : List Char) (ht : '.' ∉ t) :
    ∃ pre, dotSplits (p ++ '.' :: t) = pre ++ [(p, t)] := by
  induction p with
  | nil =>
      refine ⟨[], ?_⟩
      simp only [List.nil_append, dotSplits, if_pos rfl]
      rw [dotSplits_no_dot ht]
      rfl
  | cons c cs ih =>
      obtain ⟨pre, hpre⟩ := ih
      refine ⟨(if c = '.' then [(([] : List Char), cs ++ '.' :: t)] else []) ++
        pre.map (fun q => (c :: q.1, q.2)), ?_⟩
      simp only [List.cons_append, dotSplits, List.append_eq]
      rw [hpre]
      simp [List.append_assoc]

theorem dropWhile_cons_false {p : Char → Bool} {c : Char} (h : p c = false)
    (l : List Char) : List.dropWhile p (c :: l) = c :: l := by
  simp [List.dropWhile_cons, h]

theorem takeWhile_eq_nil_head {p : Char → Bool} {l : List Char}
    (h : ∀ c, l.head? = some c → p c = false) : List.takeWhile p l = [] := by
  cases l with
  | nil => rfl
  | cons c cs => exact takeWhile_cons_false (h c rfl) cs

theorem parseCell_canonical {L D : List Char} (hL : L ≠ []) (hLa : ∀ c ∈ L, c.isAlpha = true)
    (hD : D ≠ []) (hDd : ∀ c ∈ D, c.isDigit = true) (r : List Char)
    (hr : ∀ c, r.head? = some c → c.isDigit = false) :
    parseCell (L ++ (D ++ r)) = some (L ++ D) := by
  obtain ⟨d0, D', rfl⟩ : ∃ d0 D', D = d0 :: D' := by
    cases D with
    | nil => exact absurd rfl hD
    | cons d0 D' => exact ⟨d0, D', rfl⟩
  have hd0 := hDd d0 (List.mem_cons_self d0 D')
  have htk : List.takeWhile Char.isAlpha (L ++ (d0 :: D' ++ r)) = L := by
    rw [takeWhile_append_all hLa]
    rw [List.cons_append, takeWhile_cons_false (isDigit_not_alpha hd0)]
    simp
  have hdw : List.dropWhile Char.isAlpha (L ++ (d0 :: D' ++ r)) = d0 :: D' ++ r := by
    rw [dropWhile_append_all hLa]
    rw [List.cons_append, dropWhile_cons_false (isDigit_not_alpha hd0)]
  have htk2 : List.takeWhile Char.isDigit (d0 :: D' ++ r) = d0 :: D' := by
    rw [List.cons_append, List.takeWhile_cons, if_pos hd0]
    rw [takeWhile_append_all (fun c hc => hDd c (List.mem_cons_of_mem d0 hc))]
    rw [takeWhile_eq_nil_head hr]
    simp
  unfold parseCell
  simp only [htk, hdw, htk2]
  rw [if_pos ⟨hL, by simp⟩]

end Exm

namespace Exm

theorem parseSheetCell_canonical {p L D : List Char}
    (hp : p ≠ []) (hpn : '\n' ∉ p)
    (hL : L ≠ []) (hLa : ∀ c ∈ L, c.isAlpha = true)
    (hD : D ≠ []) (hDd : ∀ c ∈ D, c.isDigit = true) (r : List Char)
    (hrdot : '.' ∉ r) (hrdig : ∀ c, r.head? = some c → c.isDigit = false) :
    parseSheetCell ('$' :: (p ++ '.' :: (L ++ (D ++ r)))) =
      some (L ++ D, some ('$' :: p)) := by
  have htdot : '.' ∉ L ++ (D ++ r) := by
    intro hm
    rcases List.mem_append.mp hm with h | h
    · exact alpha_ne_dot (hLa _ h) rfl
    · rcases List.mem_append.mp h with h | h
      · exact digit_ne_dot (hDd _ h) rfl
      · exact hrdot h
  obtain ⟨pre, hpre⟩ := dotSplits_append_last p (L ++ (D ++ r)) htdot
  unfold parseSheetCell
  simp only [hpre, List.reverse_append, List.reverse_cons, List.reverse_nil,
    List.nil_append, List.cons_append, List.findSome?_cons]
  rw [if_pos ⟨hp, hpn⟩]
  rw [parseCell_canonical hL hLa hD hDd r hrdig]
  rfl

theorem getBiconstraint_canonical (op : Op) {p L D : List Char} (sp r : List Char)
    (sheetname : List Char)
    (hsp : ∀ c ∈ sp, isPySpace c = true)
    (hp : p ≠ []) (hpn : '\n' ∉ p)
    (hL : L ≠ []) (hLa : ∀ c ∈ L, c.isAlpha = true)
    (hD : D ≠ []) (hDd : ∀ c ∈ D, c.isDigit = true)
    (hrdot : '.' ∉ r) (hrdig : ∀ c, r.head? = some c → c.isDigit = false) :
    getBiconstraint (op.text ++ (sp ++ ('$' :: (p ++ '.' :: (L ++ (D ++ r)))))) sheetname =
      some ⟨op, '$' :: (p ++ '.' :: (L ++ D))⟩ := by
  have hop : parseOp (op.text ++ (sp ++ ('$' :: (p ++ '.' :: (L ++ (D ++ r)))))) =
      (some op, sp ++ ('$' :: (p ++ '.' :: (L ++ (D ++ r))))) := by
    rcases sp with _ | ⟨c, cs⟩
    · simp only [List.nil_append]
      exact parseOp_text op (by decide) _
    · have hcsp := hsp c (List.mem_cons_self c cs)
      simp only [List.cons_append]
      exact parseOp_text op (pyspace_ne_eqch hcsp) _
  have hdrop2 : dropSpaces (sp ++ ('$' :: (p ++ '.' :: (L ++ (D ++ r))))) =
      '$' :: (p ++ '.' :: (L ++ (D ++ r))) :=
    dropSpaces_spaces_cons hsp (by decide) _
  have hsc := parseSheetCell_canonical hp hpn hL hLa hD hDd r hrdot hrdig
  unfold getBiconstraint
  simp only [dropSpaces_op_text, hop, hdrop2, hsc, Option.bind_eq_bind, Option.some_bind]
  simp [Option.getD, List.append_assoc]

end Exm

namespace Exm

theorem daysInMonth_le_31 (y m : Nat) : daysInMonth y m ≤ 31 := by
  unfold daysInMonth
  split_ifs <;> omega

theorem getUniDateConstraint_valid {l : List Char} {c : UniDateC}
    (h : getUniDateConstraint l = some c) : validDate c.const = true := by
  unfold getUniDateConstraint at h
  rcases hop : parseOp (dropSpaces l) with ⟨op?, l1⟩
  simp only [hop, Option.bind_eq_bind, Option.bind_eq_some] at h
  obtain ⟨⟨y, l2⟩, hy, h⟩ := h
  cases l2 with
  | nil => simp at h
  | cons s l3 =>
      have h' : (if s = '/' ∨ s = '-' then
          ((parseMonthDay l3).bind fun md =>
            if validDate ⟨y, md.1, md.2⟩ = true then
              some (⟨op?.getD Op.eq, ⟨y, md.1, md.2⟩⟩ : UniDateC)
            else none)
          else none) = some c := h
      by_cases hsep : s = '/' ∨ s = '-'
      · rw [if_pos hsep] at h'
        simp only [Option.bind_eq_some] at h'
        obtain ⟨⟨m, d⟩, hmd, h'⟩ := h'
        dsimp only at h'
        by_cases hv : validDate ⟨y, m, d⟩ = true
        · rw [if_pos hv] at h'
          simp only [Option.some.injEq] at h'
          rw [← h']
          exact hv
        · rw [if_neg hv] at h'
          simp at h'
      · rw [if_neg hsep] at h'
        simp at h'

theorem getUniTimeConstraint_valid {l : List Char} {c : UniTimeC}
    (h : getUniTimeConstraint l = some c) : validTime c.const = true := by
  unfold getUniTimeConstraint at h
  rcases hop : parseOp (dropSpaces l) with ⟨op?, l1⟩
  simp only [hop, Option.bind_eq_bind, Option.bind_eq_some] at h
  obtain ⟨⟨hh, l2⟩, hhc, h⟩ := h
  obtain ⟨⟨mi, l3⟩, hmi, h⟩ := h
  rcases hsec : parseSeconds l3 with ⟨sec, l4⟩
  rw [hsec] at h
  have h' : (if validTime ⟨(if (parseQualifier (dropSpaces l4)).1 = some true ∧ hh < 12
        then hh + 12 else hh), mi, sec⟩ = true then
      some (⟨op?.getD Op.eq, ⟨(if (parseQualifier (dropSpaces l4)).1 = some true ∧ hh < 12
        then hh + 12 else hh), mi, sec⟩⟩ : UniTimeC)
    else none) = some c := h
  by_cases hv : validTime ⟨(if (parseQualifier (dropSpaces l4)).1 = some true ∧ hh < 12
      then hh + 12 else hh), mi, sec⟩ = true
  · rw [if_pos hv] at h'
    simp only [Option.some.injEq] at h'
    rw [← h']
    exact hv
  · rw [if_neg hv] at h'
    simp at h'

end Exm

namespace Exm

theorem mem_takeWhile {p : Char → Bool} {a : Char} :
    ∀ {l : List Char}, a ∈ List.takeWhile p l → p a = true := by
  intro l
  induction l with
  | nil => simp [List.takeWhile]
  | cons c cs ih =>
      cases hc : p c with
      | true =>
          rw [List.takeWhile_cons, if_pos hc]
          intro hm
          rcases List.mem_cons.mp hm with rfl | hm
          · exact hc
          · exact ih hm
      | false =>
          rw [takeWhile_cons_false hc]
          intro hm
          exact absurd hm (List.not_mem_nil a)

theorem parseCell_shape {l cell : List Char} (h : parseCell l = some cell) :
    ∃ L D, cell = L ++ D ∧ L ≠ [] ∧ (∀ x ∈ L, x.isAlpha = true) ∧
      D ≠ [] ∧ ∀ x ∈ D, x.isDigit = true := by
  have h' : (if List.takeWhile Char.isAlpha l ≠ [] ∧
      List.takeWhile Char.isDigit (List.dropWhile Char.isAlpha l) ≠ [] then
      some (List.takeWhile Char.isAlpha l ++
        List.takeWhile Char.isDigit (List.dropWhile Char.isAlpha l))
    else none) = some cell := h
  by_cases hcond : List.takeWhile Char.isAlpha l ≠ [] ∧
      List.takeWhile Char.isDigit (List.dropWhile Char.isAlpha l) ≠ []
  · rw [if_pos hcond] at h'
    simp only [Option.some.injEq] at h'
    exact ⟨_, _, h'.symm, hcond.1, fun x hx => mem_takeWhile hx,
      hcond.2, fun x hx => mem_takeWhile hx⟩
  · rw [if_neg hcond] at h'
    simp at h'

theorem findSome?_exists {α β : Type} {f : α → Option β} {l : List α} {b : β}
    (h : List.findSome? f l = some b) : ∃ a ∈ l, f a = some b := by
  obtain ⟨l1, a, l2, rfl, hfa, -⟩ := List.findSome?_eq_some_iff.mp h
  exact ⟨a, by simp, hfa⟩

theorem parseSheetCell_shape {l cell : List Char} {sheet? : Option (List Char)}
    (h : parseSheetCell l = some (cell, sheet?)) :
    (∃ L D, cell = L ++ D ∧ L ≠ [] ∧ (∀ x ∈ L, x.isAlpha = true) ∧
      D ≠ [] ∧ (∀ x ∈ D, x.isDigit = true)) ∧
      (sheet? = none ∨ ∃ p, sheet? = some ('$' :: p) ∧ p ≠ [] ∧ '\n' ∉ p) := by
  unfold parseSheetCell at h
  split at h
  · obtain ⟨⟨p, r⟩, hmem, hf⟩ := findSome?_exists h
    dsimp only at hf
    by_cases hcond : p ≠ [] ∧ '\n' ∉ p
    · rw [if_pos hcond] at hf
      rcases hpc : parseCell r with _ | cell'
      · rw [hpc] at hf; simp at hf
      · rw [hpc] at hf
        simp only [Option.map_some', Option.some.injEq, Prod.mk.injEq] at hf
        obtain ⟨rfl, rfl⟩ : cell' = cell ∧ some ('$' :: p) = sheet? := hf
        exact ⟨parseCell_shape hpc, Or.inr ⟨p, rfl, hcond⟩⟩
    · rw [if_neg hcond] at hf
      simp at hf
  · rcases hpc : parseCell l with _ | cell'
    · rw [hpc] at h; simp at h
    · rw [hpc] at h
      simp only [Option.map_some', Option.some.injEq, Prod.mk.injEq] at h
      obtain ⟨rfl, rfl⟩ : cell' = cell ∧ (none : Option (List Char)) = sheet? := h
      exact ⟨parseCell_shape hpc, Or.inl rfl⟩

end Exm

namespace Exm

theorem getBiconstraint_shape {l sheetname : List Char} {c : BiC}
    (h : getBiconstraint l sheetname = some c) :
    ∃ p L D, c.var = '$' :: (p ++ '.' :: (L ++ D)) ∧
      (p = sheetname ∨ (p ≠ [] ∧ '\n' ∉ p)) ∧
      L ≠ [] ∧ (∀ x ∈ L, x.isAlpha = true) ∧ D ≠ [] ∧ (∀ x ∈ D, x.isDigit = true) := by
  unfold getBiconstraint at h
  rcases hop : parseOp (dropSpaces l) with ⟨op?, l1⟩
  simp only [hop, Option.bind_eq_bind, Option.bind_eq_some] at h
  obtain ⟨⟨cell, sheet?⟩, hsc, h⟩ := h
  dsimp only at h
  obtain ⟨⟨L, D, rfl, hL, hLa, hD, hDd⟩, hsheet⟩ := parseSheetCell_shape hsc
  rcases hsheet with rfl | ⟨p, rfl, hp, hpn⟩
  · simp only [Option.some.injEq] at h
    refine ⟨sheetname, L, D, ?_, Or.inl rfl, hL, hLa, hD, hDd⟩
    rw [← h]
    rfl
  · simp only [Option.some.injEq] at h
    refine ⟨p, L, D, ?_, Or.inr ⟨hp, hpn⟩, hL, hLa, hD, hDd⟩
    rw [← h]
    simp [List.cons_append]

/-- C9: re-parsing the canonical string form of any constraint the parser
produces — its operator followed by its constant (for unit constraints) or
its referenced key (for binary constraints) — yields a constraint equal to
the original.  The binary case assumes the enclosing sheet name used for
qualification is non-empty and newline-free (as every spreadsheet sheet
name is); the re-parse then succeeds under *any* enclosing sheet name. -/
theorem c9_reparse_canonical_form :
    (∀ (l : List Char) (c : UniDateC), getUniDateConstraint l = some c →
      getUniDateConstraint (UniDateC.str c) = some c) ∧
    (∀ (l : List Char) (c : UniTimeC), getUniTimeConstraint l = some c →
      getUniTimeConstraint (UniTimeC.str c) = some c) ∧
    (∀ (l sheetname : List Char) (c : BiC), sheetname ≠ [] → '\n' ∉ sheetname →
      getBiconstraint l sheetname = some c →
      ∀ sheetname' : List Char, getBiconstraint (BiC.str c) sheetname' = some c) := by
  refine ⟨?_, ?_, ?_⟩
  · intro l c h
    have hv := getUniDateConstraint_valid h
    rcases c with ⟨op, ⟨y, m, d⟩⟩
    have hb : 1 ≤ y ∧ y ≤ 9999 ∧ 1 ≤ m ∧ m ≤ 12 ∧ 1 ≤ d ∧ d ≤ daysInMonth y m := by
      simpa [validDate, decide_eq_true_eq] using hv
    have h31 := daysInMonth_le_31 y m
    have hform : UniDateC.str ⟨op, ⟨y, m, d⟩⟩ =
        op.text ++ ([' '] ++ (pad4 y ++ ('-' :: (pad2 m ++ ('-' ::
          (pad2 d ++ (' ' :: timeStr midnight))))))) := by
      simp [UniDateC.str, dateStr, List.append_assoc]
    rw [hform]
    exact getUniDateConstraint_canonical op y m d [' '] _
      (by intro x hx; rcases List.mem_singleton.mp hx with rfl; rfl)
      (by omega) (by omega) (by omega) hv (Or.inr rfl) (Or.inr rfl)
  · intro l c h
    have hv := getUniTimeConstraint_valid h
    rcases c with ⟨op, ⟨hh, mi, s⟩⟩
    have hb : hh ≤ 23 ∧ mi ≤ 59 ∧ s ≤ 59 := by
      simpa [validTime, decide_eq_true_eq] using hv
    have hform : UniTimeC.str ⟨op, ⟨hh, mi, s⟩⟩ =
        op.text ++ ([' '] ++ (pad2 hh ++ (':' :: (pad2 mi ++ (':' ::
          (pad2 s ++ ([] : List Char))))))) := by
      simp [UniTimeC.str, timeStr, List.append_assoc]
    rw [hform]
    exact getUniTimeConstraint_canonical op hh mi s [' '] []
      (by intro x hx; rcases List.mem_singleton.mp hx with rfl; rfl)
      (by omega) (by omega) (by omega) hv
      (by intro habs; simp [dropSpaces, parseQualifier] at habs)
  · intro l sheetname c hs hn h sheetname'
    obtain ⟨p, L, D, hvar, hpcond, hL, hLa, hD, hDd⟩ := getBiconstraint_shape h
    rcases c with ⟨op, var⟩
    simp only at hvar
    have hp : p ≠ [] ∧ '\n' ∉ p := by
      rcases hpcond with rfl | hp
      · exact ⟨hs, hn⟩
      · exact hp
    have hform : BiC.str ⟨op, var⟩ =
        op.text ++ ([' '] ++ ('$' :: (p ++ '.' :: (L ++ (D ++ ([] : List Char)))))) := by
      simp [BiC.str, hvar]
    rw [hform]
    have := getBiconstraint_canonical op [' '] [] sheetname'
      (by intro x hx; rcases List.mem_singleton.mp hx with rfl; rfl)
      hp.1 hp.2 hL hLa hD hDd
      (by simp)
      (by intro x hx; simp at hx)
    rw [this]
    simp [hvar]

end Exm

namespace Exm

/-- C9 (witness): the roundtrip theorem applied to the parses of
`<= 2024/5/1`, `3:30 PM` and `!=C30` (the last inside sheet `GII`,
re-parsed under sheet `XX`). -/
theorem c9_reparse_canonical_form_witness :
    getUniDateConstraint (UniDateC.str ⟨Op.le, ⟨2024, 5, 1⟩⟩) =
      some ⟨Op.le, ⟨2024, 5, 1⟩⟩ ∧
    getUniTimeConstraint (UniTimeC.str ⟨Op.eq, ⟨15, 30, 0⟩⟩) =
      some ⟨Op.eq, ⟨15, 30, 0⟩⟩ ∧
    getBiconstraint (BiC.str ⟨Op.ne, "$GII.C30".toList⟩) "XX".toList =
      some ⟨Op.ne, "$GII.C30".toList⟩ :=
  ⟨c9_reparse_canonical_form.1 "<= 2024/5/1".toList ⟨Op.le, ⟨2024, 5, 1⟩⟩ rfl,
    c9_reparse_canonical_form.2.1 "3:30 PM".toList ⟨Op.eq, ⟨15, 30, 0⟩⟩ rfl,
    c9_reparse_canonical_form.2.2 "!=C30".toList "GII".toList ⟨Op.ne, "$GII.C30".toList⟩
      (by decide) (by decide) rfl "XX".toList⟩

/-! ## C10: prefix matching and trailing characters -/

/-- C10 (counterexample): the fragment `2024-1-39` begins with the valid
unit-date text `2024-1-3`, yet it is not accepted: the greedy day group
absorbs the trailing `9`, `datetime` rejects day 39, the fragment then
fails the unit-time and binary parsers too, and `get_constraints` reports
it as a fatal syntax error instead of ignoring the trailing character. -/
theorem c10_trailing_extends_match :
    getUniDateConstraint "2024-1-3".toList = some ⟨Op.eq, ⟨2024, 1, 3⟩⟩ ∧
    "2024-1-3".toList ++ ['9'] = "2024-1-39".toList ∧
    getUniDateConstraint "2024-1-39".toList = none ∧
    getUniTimeConstraint "2024-1-39".toList = none ∧
    getBiconstraint "2024-1-39".toList "GII".toList = none ∧
    get_constraints "2024-1-39".toList "GII".toList "B2".toList =
      .error (errConstraintMsg "2024-1-39".toList "GII".toList "B2".toList) :=
  ⟨rfl, rfl, rfl, rfl, rfl, rfl⟩

/-- C10 (amended): the three fragment parsers match only a prefix of
their input, and trailing characters that the greedy match cannot absorb
are silently ignored: any trailing text after a saturated unit-date match
is ignored; any trailing text after a saturated unit-time match with hour
≥ 12 is ignored (a `PM` qualifier in the trailing text is consumed but
changes nothing); and trailing text that contains no dot and does not
begin with a digit is ignored after a binary reference.  (Trailing text
that the greedy match *can* absorb — e.g. a digit extending a one-digit
day, or a seconds group — changes or invalidates the parse, as the
counterexample shows.) -/
theorem c10_prefix_trailing_ignored (t : List Char) :
    getUniDateConstraint ("=2024-05-01".toList ++ t) = some ⟨Op.eq, ⟨2024, 5, 1⟩⟩ ∧
    getUniTimeConstraint ("=21:30:00".toList ++ t) = some ⟨Op.eq, ⟨21, 30, 0⟩⟩ ∧
    ('.' ∉ t → (∀ c, t.head? = some c → c.isDigit = false) →
      getBiconstraint ("=$G.C1".toList ++ t) "XX".toList =
        some ⟨Op.eq, "$G.C1".toList⟩) := by
  refine ⟨?_, ?_, ?_⟩
  · have hform : "=2024-05-01".toList ++ t = Op.eq.text ++
        (([] : List Char) ++ (pad4 2024 ++ ('-' :: (pad2 5 ++ ('-' :: (pad2 1 ++ t)))))) := rfl
    rw [hform]
    exact getUniDateConstraint_canonical Op.eq 2024 5 1 [] t
      (by intro x hx; simp at hx) (by omega) (by omega) (by omega)
      (by decide) (Or.inr rfl) (Or.inr rfl)
  · have hform : "=21:30:00".toList ++ t = Op.eq.text ++
        (([] : List Char) ++ (pad2 21 ++ (':' :: (pad2 30 ++ (':' :: (pad2 0 ++ t)))))) := rfl
    rw [hform]
    exact getUniTimeConstraint_canonical Op.eq 21 30 0 [] t
      (by intro x hx; simp at hx) (by omega) (by omega) (by omega)
      (by decide) (by intro _; omega)
  · intro hdot hdig
    have hform : "=$G.C1".toList ++ t = Op.eq.text ++
        (([] : List Char) ++ ('$' :: (['G'] ++ '.' :: (['C'] ++ (['1'] ++ t))))) := rfl
    rw [hform]
    have := @getBiconstraint_canonical Op.eq ['G'] ['C'] ['1']
      [] t "XX".toList
      (by intro x hx; simp at hx) (by decide) (by decide) (by decide)
      (by intro x hx; rcases List.mem_singleton.mp hx with rfl; rfl) (by decide)
      (by intro x hx; rcases List.mem_singleton.mp hx with rfl; rfl)
      hdot hdig
    rw [this]
    rfl

/-- C10 (witness): the amended theorem at the trailing text `xy`. -/
theorem c10_prefix_trailing_ignored_witness :
    getUniDateConstraint ("=2024-05-01".toList ++ "xy".toList) =
      some ⟨Op.eq, ⟨2024, 5, 1⟩⟩ ∧
    getUniTimeConstraint ("=21:30:00".toList ++ "xy".toList) =
      some ⟨Op.eq, ⟨21, 30, 0⟩⟩ ∧
    getBiconstraint ("=$G.C1".toList ++ "xy".toList) "XX".toList =
      some ⟨Op.eq, "$G.C1".toList⟩ :=
  ⟨(c10_prefix_trailing_ignored "xy".toList).1,
    (c10_prefix_trailing_ignored "xy".toList).2.1,
    (c10_prefix_trailing_ignored "xy".toList).2.2 (by decide) (by decide)⟩

end Exm
